import Mathlib

/-!
Verification of the `zilfs` module of ZILANT-PC
(`src/zilant_prime_core/zilfs.py`): a shallow embedding of its path
handling, tar packing/unpacking, snapshot metadata, and the
`ZilantFS` session layer, with theorems settling the specification
claims about it.

Conventions:
* POSIX paths are lists of components (`List String`); rendering a path
  to its display string (`str(Path)`) produces a `List Char`, so Python
  string operations (`startswith`) are modelled on character lists.
* File bytes are `Nat`s; a regular file is a declared size plus a byte
  function (large sparse files never materialize their zero bytes, so a
  byte-list representation would be unusable — the function view mirrors
  what the code manipulates through `_ZeroFile` and `truncate`).
* External collaborators (the AEAD container codec, the host JSON codec,
  the system `tar` binary) are modelled at their interface boundary;
  each such definition says so in its doc comment.
-/

namespace ZilantPC

/-! ## Path model -/

/-- A path component is "clean" when it is a plain directory-entry name:
not `..`, not `.`, not empty, and without an embedded separator.
Names produced by `f.relative_to(src)` during packing are clean. -/
def cleanComp (c : String) : Bool :=
  !(c = "..") && !(c = ".") && !(c = "") && !(c.data.contains '/')

/-- Lexical resolution of a component sequence against an accumulator,
as `Path.resolve()` performs on a symlink-free tree: `..` drops the last
accumulated component (staying at the root when there is none), `.` and
empty components vanish, and anything else is appended. -/
def normalize (acc : List String) : List String → List String
  | [] => acc
  | c :: rest =>
    if c = ".." then normalize acc.dropLast rest
    else if c = "." then normalize acc rest
    else if c = "" then normalize acc rest
    else normalize (acc ++ [c]) rest

/-- Display string of an absolute path, as `str(Path)`: a leading `/`
before each component, and `/` itself for the root. -/
def renderAbs (p : List String) : List Char :=
  if p = [] then ['/'] else p.flatMap fun c => '/' :: c.data

/-- Python `s.startswith(pre)` on rendered paths. -/
def pyStartswith (s pre : List Char) : Bool :=
  pre.isPrefixOf s

/-- The property the spec asks of the extraction guard: the resolved
target lies in the subtree of the resolved destination root. -/
def isDescendant (root tgt : List String) : Prop :=
  normalize [] root <+: normalize [] tgt

/-! ## Tar archive model -/

/-- A regular file: declared size and byte contents (indices `≥ size`
read as holes, i.e. zero). -/
structure TFile where
  size : Nat
  byteAt : Nat → Nat

/-- A filesystem node. -/
inductive FSNode
  | dir : FSNode
  | file : TFile → FSNode

/-- A filesystem as a path-keyed association store (most recent write
first). Keys are absolute resolved paths. -/
def FS := List (List String × FSNode)

def FS.lookup (fs : FS) (p : List String) : Option FSNode :=
  (List.find? (fun e => decide (e.1 = p)) fs).map (·.2)

def FS.set (fs : FS) (p : List String) (n : FSNode) : FS :=
  (p, n) :: fs.filter fun e => decide (e.1 ≠ p)

/-- One member of a tar archive. `name` is the member's path string,
pre-split on `/` (tar names are strings; splitting is how
`dest / m.name` consumes them, so the embedding carries them split,
plus the flag saying whether the string was absolute, in which case
`Path.__truediv__` discards `dest`). `paxSparse` is the value of the
`ZIL_SPARSE_SIZE` pax header when present. -/
structure TarMember where
  nameAbs : Bool
  name : List String
  isDir : Bool
  size : Nat
  byteAt : Nat → Nat
  mode : Nat
  mtime : Nat
  paxSparse : Option String

/-- The path `dest / m.name` before resolution. -/
def joinedPath (dest : List String) (m : TarMember) : List String :=
  if m.nameAbs then m.name else dest ++ m.name

/-- The resolved extraction target of a member, `(dest / m.name).resolve()`. -/
def resolvedTarget (dest : List String) (m : TarMember) : List String :=
  normalize [] (joinedPath dest m)

/-- The guard test of `_safe_extract`, line for line:
`str(tgt.resolve()).startswith(str(dest.resolve()))`. -/
def tarGuard (dest : List String) (m : TarMember) : Bool :=
  pyStartswith (renderAbs (resolvedTarget dest m)) (renderAbs (normalize [] dest))

inductive TarError
  | pathTraversal (name : List String)
  | sparseTargetMissing (name : List String)
deriving DecidableEq

/-- The node a tar member materializes as. -/
def nodeOf (m : TarMember) : FSNode :=
  if m.isDir then .dir else .file ⟨m.size, m.byteAt⟩

/-- Effect of `tar.extract(m, dest)`: materialize the member at its
resolved target (overwriting an existing node there). -/
def extractOne (dest : List String) (m : TarMember) (fs : FS) : FS :=
  fs.set (resolvedTarget dest m) (nodeOf m)

/-- `_safe_extract`: for each member in order, check the guard and
extract; a failing member aborts the rest (members already extracted
stay extracted). -/
def safe_extract (dest : List String) (ms : List TarMember) (fs : FS) : Except TarError FS :=
  match ms with
  | [] => .ok fs
  | m :: rest =>
    if tarGuard dest m then safe_extract dest rest (extractOne dest m fs)
    else .error (.pathTraversal m.name)

/-- One decimal digit consumed by `int()`. -/
def decStep (n : Nat) (c : Char) : Nat :=
  n * 10 + (c.toNat - 48)

/-- Python `int()` applied to the canonical decimal strings the code
stores in `ZIL_SPARSE_SIZE` (it never stores signs or whitespace). -/
def pyInt (s : String) : Nat :=
  s.data.foldl decStep 0

/-- `_truncate_file`: resize to `n`; bytes below the old size survive,
any extension reads as zero holes. -/
def truncFile (f : TFile) (n : Nat) : TFile :=
  ⟨n, fun i => if i < f.size then f.byteAt i else 0⟩

/-- The sparse-restore pass of `unpack_dir`: every member carrying a
`ZIL_SPARSE_SIZE` pax header has its extracted target truncated to the
declared size; `_truncate_file` opens `r+b`, so a missing target is an
error. -/
def sparsePass (dest : List String) (ms : List TarMember) (fs : FS) : Except TarError FS :=
  match ms with
  | [] => .ok fs
  | m :: rest =>
    match m.paxSparse with
    | none => sparsePass dest rest fs
    | some sp =>
      match fs.lookup (resolvedTarget dest m) with
      | some (.file f) =>
          sparsePass dest rest (fs.set (resolvedTarget dest m) (.file (truncFile f (pyInt sp))))
      | _ => .error (.sparseTargetMissing m.name)

/-- The tar-level half of `unpack_dir`: safe extraction into an empty
destination, then the sparse-restore pass over the same member list. -/
def unpack_tar (dest : List String) (ms : List TarMember) : Except TarError FS :=
  (safe_extract dest ms []).bind (sparsePass dest ms)

/-! ## C1: the extraction guard -/

/-- Destination root `/tmp/d` for the C1 evaluation. -/
def c1dest : List String := ["tmp", "d"]

/-- A member named `../dd/escape.txt`: its resolved target
`/tmp/dd/escape.txt` escapes `/tmp/d` but shares it as a string prefix. -/
def c1member : TarMember :=
  ⟨false, ["..", "dd", "escape.txt"], false, 3, fun _ => 7, 420, 0, none⟩

/-- A member named `../escape.txt`, the spec's example entry. -/
def c1escape : TarMember :=
  ⟨false, ["..", "escape.txt"], false, 3, fun _ => 7, 420, 0, none⟩

/-- C1: the guard compares rendered paths with `str.startswith` and no
separator, so while the entry `../escape.txt` is indeed rejected, the
entry `../dd/escape.txt` resolves to `/tmp/dd/escape.txt`, passes the
check against root `/tmp/d`, and extraction creates a file outside the
destination root — refuting "no file is ever created outside the
destination root". -/
theorem c1_safe_extract_prefix_bypass :
    safe_extract c1dest [c1escape] [] = .error (.pathTraversal ["..", "escape.txt"]) ∧
    tarGuard c1dest c1member = true ∧
    safe_extract c1dest [c1member] [] =
      .ok [(["tmp", "dd", "escape.txt"], FSNode.file ⟨3, fun _ => 7⟩)] ∧
    ¬ isDescendant c1dest ["tmp", "dd", "escape.txt"] := by
  refine ⟨rfl, rfl, rfl, ?_⟩
  intro h
  have h' : ["tmp", "d"] <+: ["tmp", "dd", "escape.txt"] := h
  obtain ⟨t, ht⟩ := h'
  simp at ht

/-! ## Decimal round-trip: `int(str(n)) == n` -/

theorem digitChar_val : ∀ d, d < 10 → (Nat.digitChar d).toNat - 48 = d := by
  decide

theorem decStep_digitChar (s : Nat) (d : Nat) (h : d < 10) :
    decStep s (Nat.digitChar d) = s * 10 + d := by
  show s * 10 + ((Nat.digitChar d).toNat - 48) = s * 10 + d
  rw [digitChar_val d h]

theorem toDigitsCore_shift (fuel : Nat) : ∀ n acc,
    Nat.toDigitsCore 10 fuel n acc = Nat.toDigitsCore 10 fuel n [] ++ acc := by
  induction fuel with
  | zero => intro n acc; simp [Nat.toDigitsCore]
  | succ f ih =>
    intro n acc
    simp only [Nat.toDigitsCore]
    by_cases h : n / 10 = 0
    · simp [h]
    · simp only [h, if_false]
      rw [ih (n / 10) (Nat.digitChar (n % 10) :: acc), ih (n / 10) [Nat.digitChar (n % 10)],
        List.append_assoc]
      rfl

theorem toDigitsCore_fuel_irrel (n : Nat) : ∀ fuel fuel' acc, n < fuel → n < fuel' →
    Nat.toDigitsCore 10 fuel n acc = Nat.toDigitsCore 10 fuel' n acc := by
  induction n using Nat.strong_induction_on with
  | _ n ih =>
    intro fuel fuel' acc hf hf'
    obtain ⟨f, rfl⟩ : ∃ f, fuel = f + 1 := ⟨fuel - 1, by omega⟩
    obtain ⟨f', rfl⟩ : ∃ g, fuel' = g + 1 := ⟨fuel' - 1, by omega⟩
    simp only [Nat.toDigitsCore]
    by_cases h : n / 10 = 0
    · simp [h]
    · simp only [h, if_false]
      have hlt : n / 10 < n := Nat.div_lt_self (by omega) (by omega)
      exact ih (n / 10) hlt f f' _ (by omega) (by omega)

theorem toDigits_val (n : Nat) : ∀ s,
    (Nat.toDigits 10 n).foldl decStep s = s * 10 ^ (Nat.toDigits 10 n).length + n := by
  induction n using Nat.strong_induction_on with
  | _ n ih =>
    intro s
    by_cases h : n / 10 = 0
    · have hn : n < 10 := by
        rcases Nat.lt_or_ge n 10 with h10 | h10
        · exact h10
        · exact absurd h (by
            have : 10 ≤ n / 10 * 10 + n % 10 := by
              have := Nat.div_add_mod n 10
              omega
            intro hz
            rw [hz] at this
            omega)
      have hsplit : Nat.toDigits 10 n = [Nat.digitChar (n % 10)] := by
        simp [Nat.toDigits, Nat.toDigitsCore, h]
      rw [hsplit]
      simp only [List.foldl_cons, List.foldl_nil, List.length_cons, List.length_nil]
      rw [decStep_digitChar s (n % 10) (Nat.mod_lt _ (by omega)),
        Nat.mod_eq_of_lt hn]
      ring
    · have hlt : n / 10 < n := Nat.div_lt_self (by omega) (by omega)
      have hsplit : Nat.toDigits 10 n = Nat.toDigits 10 (n / 10) ++ [Nat.digitChar (n % 10)] := by
        show Nat.toDigitsCore 10 (n + 1) n [] = _
        rw [show Nat.toDigitsCore 10 (n + 1) n [] =
            Nat.toDigitsCore 10 n (n / 10) [Nat.digitChar (n % 10)] by
          simp [Nat.toDigitsCore, h]]
        rw [toDigitsCore_shift n (n / 10) [Nat.digitChar (n % 10)],
          toDigitsCore_fuel_irrel (n / 10) n (n / 10 + 1) [] hlt (Nat.lt_succ_self _)]
        rfl
      rw [hsplit, List.foldl_append, ih (n / 10) hlt s]
      simp only [List.foldl_cons, List.foldl_nil, List.length_append, List.length_cons,
        List.length_nil]
      rw [decStep_digitChar _ (n % 10) (Nat.mod_lt _ (by omega))]
      have hmod := Nat.div_add_mod n 10
      rw [pow_succ]
      ring_nf
      omega

/-- The decimal string round-trip: `int(str(n)) == n`, connecting the
`str(st.st_size)` stored in the `ZIL_SPARSE_SIZE` pax header with the
`int(sp)` consumed by `unpack_dir`. -/
theorem pyInt_repr (n : Nat) : pyInt (Nat.repr n) = n := by
  have h := toDigits_val n 0
  show (Nat.toDigits 10 n).foldl decStep 0 = n
  rw [h]
  ring

/-! ## Source trees and `pack_dir_stream` -/

/-- A node of the source tree as `sorted(src.rglob("*"))` yields it: a
directory, or a regular file with size, byte contents, mode and mtime.
Paths are relative to `src`, pre-split into components. -/
inductive SrcNode
  | dir : List String → SrcNode
  | file : List String → Nat → (Nat → Nat) → Nat → Nat → SrcNode

def SrcNode.path : SrcNode → List String
  | .dir p => p
  | .file p _ _ _ _ => p

/-- The full-content tar member of a node, as `tar.add` emits it. -/
def fullMember : SrcNode → TarMember
  | .dir p => ⟨false, p, true, 0, fun _ => 0, 0, 0, none⟩
  | .file p sz b mo mt => ⟨false, p, false, sz, b, mo, mt, none⟩

/-- The placeholder member built for an oversized file: a zero-payload
entry whose `ZIL_SPARSE_SIZE` pax header carries `str(st.st_size)`. -/
def placeholderMember (p : List String) (sz mo mt : Nat) : TarMember :=
  ⟨false, p, false, 0, fun _ => 0, mo, mt, some (Nat.repr sz)⟩

/-- The large-file threshold of `pack_dir_stream`: `1 * 1024 * 1024`. -/
def sparseThreshold : Nat := 1 * 1024 * 1024

/-- Is `p` strictly inside directory `d`? -/
def strictUnder (d p : List String) : Bool :=
  d.isPrefixOf p && !(decide (d = p))

/-- Members emitted by `tar.add(f, arcname=str(rel))` on a directory:
`recursive` defaults to true, so the directory entry is followed by all
nodes below it — at full content, with no sparse transform. -/
def addRecursiveDir (nodes : List SrcNode) (d : List String) : List TarMember :=
  fullMember (.dir d) :: (nodes.filter fun n => strictUnder d n.path).map fullMember

/-- The members one node of the iteration contributes: a directory goes
through `tar.add` (recursively); a file of size `≤ 1 MiB` is stored in
full; a larger file becomes a placeholder. -/
def segNode (nodes : List SrcNode) : SrcNode → List TarMember
  | .dir d => addRecursiveDir nodes d
  | .file p sz b mo mt =>
    if sz ≤ sparseThreshold then [fullMember (.file p sz b mo mt)]
    else [placeholderMember p sz mo mt]

/-- The member sequence written by `pack_dir_stream`'s in-Python writer
(the branch taken when no FIFO is available): the contributions of the
sorted tree iteration, in order. -/
def packFallbackMembers (nodes : List SrcNode) : List TarMember :=
  nodes.flatMap (segNode nodes)

/-- Modelled from the standard semantics of the system `tar` binary
(an external collaborator): the FIFO branch of `pack_dir_stream` runs
`tar -C src -cf fifo .`, which archives every node with its full
content; it applies no sparse transform and writes no
`ZIL_SPARSE_SIZE` header. (The cosmetic `./` name pieces are dropped,
being erased by path resolution at extraction.) -/
def packFifoMembers (nodes : List SrcNode) : List TarMember :=
  nodes.map fullMember

/-- The archive `pack_dir_stream` feeds to the streaming AEAD sink:
the FIFO transport on a POSIX host with `os.mkfifo`, the in-Python
fallback writer otherwise. -/
def pack_dir_stream_members (posixFifo : Bool) (nodes : List SrcNode) : List TarMember :=
  if posixFifo then packFifoMembers nodes else packFallbackMembers nodes

/-- `pack_dir_stream` then `unpack_dir`, at the tar level: the
streaming AEAD layer round-trips the byte stream between them (external
collaborator, spec §6), so `unpack_dir` extracts exactly the packed
members and then runs the sparse-restore pass. -/
def stream_roundtrip (posixFifo : Bool) (nodes : List SrcNode) (dest : List String) :
    Except TarError FS :=
  unpack_tar dest (pack_dir_stream_members posixFifo nodes)

/-- Size of the file stored at `p`, if any. -/
def FS.sizeAt (fs : FS) (p : List String) : Option Nat :=
  match fs.lookup p with
  | some (.file f) => some f.size
  | _ => none

/-- Byte `i` of the file stored at `p`, if any. -/
def FS.byteAtPath (fs : FS) (p : List String) (i : Nat) : Option Nat :=
  match fs.lookup p with
  | some (.file f) => some (f.byteAt i)
  | _ => none

/-! ## C3: sparse transform under streaming pack -/

/-- A file one byte over the 1 MiB threshold, with nonzero content. -/
def c3node : SrcNode := .file ["big.bin"] 1048577 (fun _ => 7) 420 0

/-- C3: on a POSIX host with `os.mkfifo` — the FIFO branch of
`pack_dir_stream` — the external `tar` stores the oversized file with
its full 1048577 bytes of content, not as a zero-payload placeholder,
and with no `ZIL_SPARSE_SIZE` pax header; after unpack the restored
bytes are the original nonzero bytes, not zeros. This refutes the
claim's universal "every file whose size exceeds 1 MiB is stored as a
zero-payload placeholder". -/
theorem c3_fifo_counterexample :
    pack_dir_stream_members true [c3node] =
      [⟨false, ["big.bin"], false, 1048577, fun _ => 7, 420, 0, none⟩] ∧
    sparseThreshold < 1048577 ∧
    stream_roundtrip true [c3node] ["tmp", "out"] =
      .ok [(["tmp", "out", "big.bin"], FSNode.file ⟨1048577, fun _ => 7⟩)] ∧
    FS.byteAtPath [(["tmp", "out", "big.bin"], FSNode.file ⟨1048577, fun _ => 7⟩)]
      ["tmp", "out", "big.bin"] 0 = some 7 ∧
    (7 : Nat) ≠ 0 := by
  exact ⟨rfl, by norm_num [sparseThreshold], rfl, rfl, by norm_num⟩

/-! ## Store and path lemmas -/

theorem find?_filter_ne (fs : List (List String × FSNode)) (p q : List String) (h : q ≠ p) :
    List.find? (fun e => decide (e.1 = q)) (fs.filter fun e => decide (e.1 ≠ p)) =
      List.find? (fun e => decide (e.1 = q)) fs := by
  induction fs with
  | nil => rfl
  | cons e rest ih =>
    by_cases he : e.1 = p
    · have hq : ¬(decide (e.1 = q) = true) := by
        simp only [decide_eq_true_eq]
        intro hh
        exact h (hh ▸ he ▸ rfl)
      rw [List.filter_cons, if_neg (by simp [he]),
        List.find?_cons_of_neg rest hq, ih]
    · rw [List.filter_cons, if_pos (by simp [he])]
      by_cases hq : e.1 = q
      · rw [List.find?_cons_of_pos _ (by simp [hq]),
          List.find?_cons_of_pos _ (by simp [hq])]
      · rw [List.find?_cons_of_neg _ (by simp [hq]),
          List.find?_cons_of_neg _ (by simp [hq]), ih]

theorem FS.lookup_set (fs : FS) (p : List String) (n : FSNode) (q : List String) :
    (fs.set p n).lookup q = if q = p then some n else fs.lookup q := by
  by_cases h : q = p
  · subst h
    simp [FS.set, FS.lookup, List.find?_cons_of_pos]
  · rw [if_neg h]
    show (List.find? (fun e => decide (e.1 = q)) ((p, n) ::
        (fs.filter fun e => decide (e.1 ≠ p)))).map (·.2) =
      (List.find? (fun e => decide (e.1 = q)) fs).map (·.2)
    rw [List.find?_cons_of_neg _ (by
        simp only [decide_eq_true_eq]
        exact fun hh => h hh.symm),
      find?_filter_ne fs p q h]

theorem normalize_append (xs : List String) : ∀ acc ys,
    normalize acc (xs ++ ys) = normalize (normalize acc xs) ys := by
  induction xs with
  | nil => intro acc ys; rfl
  | cons c rest ih =>
    intro acc ys
    simp only [List.cons_append, normalize]
    by_cases h1 : c = ".."
    · simp only [h1, if_true]; exact ih _ _
    · by_cases h2 : c = "."
      · simp [h1, h2]; exact ih _ _
      · by_cases h3 : c = ""
        · simp [h1, h2, h3]; exact ih _ _
        · simp [h1, h2, h3]; exact ih _ _

theorem normalize_clean (ys : List String) (hys : ∀ c ∈ ys, cleanComp c = true) : ∀ acc,
    normalize acc ys = acc ++ ys := by
  induction ys with
  | nil => intro acc; simp [normalize]
  | cons c rest ih =>
    intro acc
    have hc : cleanComp c = true := hys c (by simp)
    simp only [cleanComp, Bool.and_eq_true, bne_iff_ne, ne_eq, Bool.not_eq_true',
      decide_eq_false_iff_not] at hc
    simp only [normalize, if_neg hc.1.1.1, if_neg hc.1.1.2, if_neg hc.1.2]
    rw [ih (fun c hcm => hys c (by simp [hcm])) (acc ++ [c])]
    simp

theorem resolvedTarget_clean (dest : List String) (m : TarMember)
    (habs : m.nameAbs = false) (hclean : ∀ c ∈ m.name, cleanComp c = true) :
    resolvedTarget dest m = normalize [] dest ++ m.name := by
  simp only [resolvedTarget, joinedPath, habs, Bool.false_eq_true, if_false]
  rw [normalize_append, normalize_clean m.name hclean]

theorem tarGuard_clean (dest : List String) (m : TarMember)
    (habs : m.nameAbs = false) (hclean : ∀ c ∈ m.name, cleanComp c = true)
    (hd : normalize [] dest ≠ []) :
    tarGuard dest m = true := by
  rw [tarGuard, resolvedTarget_clean dest m habs hclean]
  have hne : normalize [] dest ++ m.name ≠ [] := by
    intro h
    exact hd (List.append_eq_nil.mp h).1
  rw [renderAbs, if_neg hne, renderAbs, if_neg hd, List.flatMap_append]
  exact List.isPrefixOf_iff_prefix.mpr (List.prefix_append _ _)

/-! ## Extraction and sparse-pass characterization -/

theorem safe_extract_ok (dest : List String) (ms : List TarMember) :
    ∀ fs, (∀ m ∈ ms, tarGuard dest m = true) →
    safe_extract dest ms fs = .ok (ms.foldl (fun acc m => extractOne dest m acc) fs) := by
  induction ms with
  | nil => intro fs _; rfl
  | cons m rest ih =>
    intro fs h
    rw [safe_extract, if_pos (h m (by simp))]
    exact ih _ fun m' hm' => h m' (by simp [hm'])

theorem foldl_extract_lookup (dest : List String) (ms : List TarMember) :
    ∀ fs q, (ms.foldl (fun acc m => extractOne dest m acc) fs).lookup q =
      match (ms.filter fun m => decide (resolvedTarget dest m = q)).getLast? with
      | some m => some (nodeOf m)
      | none => fs.lookup q := by
  induction ms with
  | nil => intro fs q; rfl
  | cons m rest ih =>
    intro fs q
    rw [List.foldl_cons, ih (extractOne dest m fs) q, List.filter_cons]
    by_cases hm : resolvedTarget dest m = q
    · rw [if_pos (by simpa using hm)]
      rcases hrest : rest.filter fun m' => decide (resolvedTarget dest m' = q) with _ | ⟨h1, t1⟩
      · rw [List.getLast?_singleton, List.getLast?_nil]
        show (extractOne dest m fs).lookup q = some (nodeOf m)
        rw [extractOne, FS.lookup_set, if_pos hm.symm]
      · rw [List.getLast?_cons_cons]
        rcases hgl : (h1 :: t1).getLast? with _ | x
        · exact absurd (List.getLast?_eq_none_iff.mp hgl) (by simp)
        · rfl
    · rw [if_neg (by simpa using hm)]
      rcases hrest : rest.filter fun m' => decide (resolvedTarget dest m' = q) with _ | ⟨h1, t1⟩
      · rw [List.getLast?_nil]
        show (extractOne dest m fs).lookup q = fs.lookup q
        rw [extractOne, FS.lookup_set, if_neg (fun hh => hm hh.symm)]
      · rcases hgl : (h1 :: t1).getLast? with _ | x
        · exact absurd (List.getLast?_eq_none_iff.mp hgl) (by simp)
        · rfl

/-- The total function equivalent to one step of the sparse pass. -/
def sparseApplyOne (dest : List String) (acc : FS) (m : TarMember) : FS :=
  match m.paxSparse with
  | none => acc
  | some sp =>
    match acc.lookup (resolvedTarget dest m) with
    | some (.file f) => acc.set (resolvedTarget dest m) (.file (truncFile f (pyInt sp)))
    | _ => acc

theorem sparsePass_ok (dest : List String) (ms : List TarMember) :
    ∀ fs, (∀ m ∈ ms, ∀ sp, m.paxSparse = some sp →
        ∃ f, fs.lookup (resolvedTarget dest m) = some (.file f)) →
    sparsePass dest ms fs = .ok (ms.foldl (sparseApplyOne dest) fs) := by
  induction ms with
  | nil => intro fs _; rfl
  | cons m rest ih =>
    intro fs h
    rcases hpax : m.paxSparse with _ | sp
    · rw [sparsePass, hpax, List.foldl_cons]
      rw [show sparseApplyOne dest fs m = fs by rw [sparseApplyOne, hpax]]
      exact ih fs fun m' hm' => h m' (by simp [hm'])
    · obtain ⟨f, hf⟩ := h m (by simp) sp hpax
      rw [sparsePass, hpax, hf, List.foldl_cons]
      rw [show sparseApplyOne dest fs m =
          fs.set (resolvedTarget dest m) (.file (truncFile f (pyInt sp))) by
        rw [sparseApplyOne, hpax, hf]]
      apply ih
      intro m' hm' sp' hsp'
      obtain ⟨f', hf'⟩ := h m' (by simp [hm']) sp' hsp'
      rw [FS.lookup_set]
      by_cases ht : resolvedTarget dest m' = resolvedTarget dest m
      · exact ⟨truncFile f (pyInt sp), by rw [if_pos ht]⟩
      · exact ⟨f', by rw [if_neg ht]; exact hf'⟩

/-- Truncation effect of one pax header on a stored node. -/
def truncNodeOpt (v : Option FSNode) (pax : Option String) : Option FSNode :=
  match v, pax with
  | some (.file f), some sp => some (.file (truncFile f (pyInt sp)))
  | v, _ => v

theorem foldl_sparse_lookup (dest : List String) (ms : List TarMember) :
    ∀ fs q, (ms.foldl (sparseApplyOne dest) fs).lookup q =
      (ms.filter fun m => m.paxSparse.isSome && decide (resolvedTarget dest m = q)).foldl
        (fun v m => truncNodeOpt v m.paxSparse) (fs.lookup q) := by
  induction ms with
  | nil => intro fs q; rfl
  | cons m rest ih =>
    intro fs q
    rw [List.foldl_cons, ih (sparseApplyOne dest fs m) q, List.filter_cons]
    rcases hpax : m.paxSparse with _ | sp
    · rw [if_neg (by simp [hpax])]
      rw [show sparseApplyOne dest fs m = fs by rw [sparseApplyOne, hpax]]
    · by_cases hm : resolvedTarget dest m = q
      · rw [if_pos (by simp [hpax, hm])]
        rw [List.foldl_cons]
        congr 1
        subst hm
        rcases hv : fs.lookup (resolvedTarget dest m) with _ | v
        · rw [show sparseApplyOne dest fs m = fs by rw [sparseApplyOne, hpax, hv], hv]
          rfl
        · rcases v with _ | f
          · rw [show sparseApplyOne dest fs m = fs by rw [sparseApplyOne, hpax, hv], hv]
            rfl
          · rw [show sparseApplyOne dest fs m =
                fs.set (resolvedTarget dest m) (.file (truncFile f (pyInt sp))) by
              rw [sparseApplyOne, hpax, hv]]
            rw [FS.lookup_set, if_pos rfl, hpax]
            rfl
      · rw [if_neg (by simp [hpax, hm])]
        congr 1
        rcases hv : fs.lookup (resolvedTarget dest m) with _ | v
        · rw [show sparseApplyOne dest fs m = fs by rw [sparseApplyOne, hpax, hv]]
        · rcases v with _ | f
          · rw [show sparseApplyOne dest fs m = fs by rw [sparseApplyOne, hpax, hv]]
          · rw [show sparseApplyOne dest fs m =
                fs.set (resolvedTarget dest m) (.file (truncFile f (pyInt sp))) by
              rw [sparseApplyOne, hpax, hv]]
            rw [FS.lookup_set, if_neg (fun hh => hm hh.symm)]

/-! ## Shape of the fallback writer's member list -/

theorem strictUnder_iff (d p : List String) :
    strictUnder d p = true ↔ (d <+: p ∧ d ≠ p) := by
  simp [strictUnder, List.isPrefixOf_iff_prefix]

theorem fullMember_name (n : SrcNode) : (fullMember n).name = SrcNode.path n := by
  cases n <;> rfl

theorem fullMember_nameAbs (n : SrcNode) : (fullMember n).nameAbs = false := by
  cases n <;> rfl

theorem fullMember_pax (n : SrcNode) : (fullMember n).paxSparse = none := by
  cases n <;> rfl

/-- The single member a file node contributes on its own turn of the
fallback writer's iteration. -/
def ownMember (p : List String) (sz : Nat) (b : Nat → Nat) (mo mt : Nat) : TarMember :=
  if sz ≤ sparseThreshold then fullMember (.file p sz b mo mt) else placeholderMember p sz mo mt

theorem segNode_file (nodes : List SrcNode) (p : List String) (sz : Nat) (b : Nat → Nat)
    (mo mt : Nat) :
    segNode nodes (.file p sz b mo mt) = [ownMember p sz b mo mt] := by
  rw [segNode, ownMember]
  by_cases h : sz ≤ sparseThreshold
  · rw [if_pos h, if_pos h]
  · rw [if_neg h, if_neg h]

theorem ownMember_name (p : List String) (sz : Nat) (b : Nat → Nat) (mo mt : Nat) :
    (ownMember p sz b mo mt).name = p := by
  rw [ownMember]
  by_cases h : sz ≤ sparseThreshold
  · rw [if_pos h]; rfl
  · rw [if_neg h]; rfl

/-- Every member the fallback writer emits is a relative name equal to
the path of some node of the tree. -/
theorem mem_packFallback_shape (nodes : List SrcNode) (m : TarMember)
    (hm : m ∈ packFallbackMembers nodes) :
    m.nameAbs = false ∧ ∃ n ∈ nodes, m.name = SrcNode.path n := by
  rw [packFallbackMembers, List.mem_flatMap] at hm
  obtain ⟨n, hn, hmseg⟩ := hm
  cases n with
  | dir d =>
    rw [segNode, addRecursiveDir] at hmseg
    rcases List.mem_cons.mp hmseg with h | h
    · subst h
      exact ⟨rfl, ⟨.dir d, hn, rfl⟩⟩
    · obtain ⟨n', hn', rfl⟩ := List.mem_map.mp h
      exact ⟨fullMember_nameAbs n', ⟨n', (List.mem_filter.mp hn').1, fullMember_name n'⟩⟩
  | file p sz b mo mt =>
    rw [segNode_file] at hmseg
    rcases List.mem_singleton.mp hmseg with rfl
    refine ⟨?_, ⟨.file p sz b mo mt, hn, ?_⟩⟩
    · rw [ownMember]
      by_cases h : sz ≤ sparseThreshold
      · rw [if_pos h]; rfl
      · rw [if_neg h]; rfl
    · exact ownMember_name p sz b mo mt

/-- Every pax-carrying member the fallback writer emits is the
placeholder of an oversized file of the tree, carrying its decimal
size. -/
theorem pax_mem_packFallback (nodes : List SrcNode) (m : TarMember) (sp : String)
    (hm : m ∈ packFallbackMembers nodes) (hpax : m.paxSparse = some sp) :
    ∃ p sz b mo mt, SrcNode.file p sz b mo mt ∈ nodes ∧ sparseThreshold < sz ∧
      m = placeholderMember p sz mo mt ∧ sp = Nat.repr sz := by
  rw [packFallbackMembers, List.mem_flatMap] at hm
  obtain ⟨n, hn, hmseg⟩ := hm
  cases n with
  | dir d =>
    rw [segNode, addRecursiveDir] at hmseg
    rcases List.mem_cons.mp hmseg with h | h
    · subst h; exact absurd hpax (by rw [fullMember_pax]; simp)
    · obtain ⟨n', _, rfl⟩ := List.mem_map.mp h
      exact absurd hpax (by rw [fullMember_pax]; simp)
  | file p sz b mo mt =>
    rw [segNode_file] at hmseg
    rcases List.mem_singleton.mp hmseg with rfl
    rw [ownMember] at hpax ⊢
    by_cases h : sz ≤ sparseThreshold
    · rw [if_pos h] at hpax
      exact absurd hpax (by rw [fullMember_pax]; simp)
    · rw [if_neg h] at hpax
      have hsp : sp = Nat.repr sz := by
        have : some (Nat.repr sz) = some sp := hpax ▸ rfl
        exact (Option.some.inj this).symm
      exact ⟨p, sz, b, mo, mt, hn, by omega, by rw [if_neg h], hsp⟩

/-- A node whose path is not `p` and does not strictly contain `p`
contributes no member named `p`. -/
theorem segNode_filter_name_nil (nodes : List SrcNode) (n : SrcNode) (p : List String)
    (hn : SrcNode.path n ≠ p) (hd : strictUnder (SrcNode.path n) p = false) :
    (segNode nodes n).filter (fun m => decide (m.name = p)) = [] := by
  rw [List.filter_eq_nil_iff]
  intro m hm
  simp only [decide_eq_true_eq]
  cases n with
  | dir d =>
    rw [segNode, addRecursiveDir] at hm
    rcases List.mem_cons.mp hm with h | h
    · subst h
      intro hname
      exact hn hname
    · obtain ⟨n', hn', rfl⟩ := List.mem_map.mp h
      rw [fullMember_name]
      intro hname
      have hsu := (List.mem_filter.mp hn').2
      rw [hname] at hsu
      rw [show SrcNode.path (SrcNode.dir d) = d from rfl] at hd
      exact absurd hsu (by rw [hd]; simp)
  | file pf sz b mo mt =>
    rw [segNode_file] at hm
    rcases List.mem_singleton.mp hm with rfl
    rw [ownMember_name]
    intro hname
    exact hn hname

/-- A node whose path is not `p` contributes no pax member named `p`
(directory recursion only ever emits full members, which carry no pax
header). -/
theorem segNode_filter_pax_nil (nodes : List SrcNode) (n : SrcNode) (p : List String)
    (hn : SrcNode.path n ≠ p) :
    (segNode nodes n).filter (fun m => m.paxSparse.isSome && decide (m.name = p)) = [] := by
  rw [List.filter_eq_nil_iff]
  intro m hm
  cases n with
  | dir d =>
    rw [segNode, addRecursiveDir] at hm
    rcases List.mem_cons.mp hm with h | h
    · subst h
      rw [fullMember_pax]
      simp
    · obtain ⟨n', _, rfl⟩ := List.mem_map.mp h
      rw [fullMember_pax]
      simp
  | file pf sz b mo mt =>
    rw [segNode_file] at hm
    rcases List.mem_singleton.mp hm with rfl
    rw [ownMember_name]
    simp only [Bool.and_eq_true, decide_eq_true_eq, not_and]
    exact fun _ => hn

theorem nodeOf_ownMember (p : List String) (sz : Nat) (b : Nat → Nat) (mo mt : Nat) :
    nodeOf (ownMember p sz b mo mt) =
      if sz ≤ sparseThreshold then FSNode.file ⟨sz, b⟩ else FSNode.file ⟨0, fun _ => 0⟩ := by
  rw [ownMember]
  by_cases h : sz ≤ sparseThreshold
  · rw [if_pos h, if_pos h]; rfl
  · rw [if_neg h, if_neg h]; rfl

/-- Where a file node's members sit in the fallback writer's output:
the last member named `p` is the node's own (the duplicates a recursive
ancestor-directory `tar.add` emitted come earlier), and the pax-carrying
members named `p` are exactly the node's placeholder when oversized. -/
theorem fallback_members_at (nodes : List SrcNode) (p : List String) (sz : Nat)
    (b : Nat → Nat) (mo mt : Nat)
    (hmem : SrcNode.file p sz b mo mt ∈ nodes)
    (hnodup : (nodes.map SrcNode.path).Nodup)
    (hsorted : nodes.Pairwise fun x y =>
      ¬(SrcNode.path y <+: SrcNode.path x ∧ SrcNode.path y ≠ SrcNode.path x)) :
    ((packFallbackMembers nodes).filter fun m => decide (m.name = p)).getLast? =
        some (ownMember p sz b mo mt) ∧
    ((packFallbackMembers nodes).filter fun m => m.paxSparse.isSome && decide (m.name = p)) =
        (if sz ≤ sparseThreshold then [] else [ownMember p sz b mo mt]) := by
  obtain ⟨pre, post, hdec⟩ := List.append_of_mem hmem
  subst hdec
  have hmap : ((pre ++ SrcNode.file p sz b mo mt :: post).map SrcNode.path)
      = pre.map SrcNode.path ++ p :: post.map SrcNode.path := by simp [SrcNode.path]
  rw [hmap] at hnodup
  obtain ⟨hnd1, hnd2, hdisj⟩ := List.nodup_append.mp hnodup
  have hpre_p : p ∉ pre.map SrcNode.path := fun hp => (List.disjoint_left.mp hdisj hp) (by simp)
  have hpost_p : p ∉ post.map SrcNode.path := (List.nodup_cons.mp hnd2).1
  have hrel : ∀ n ∈ post, ¬(SrcNode.path n <+: p ∧ SrcNode.path n ≠ p) := by
    have h1 := (List.pairwise_append.mp hsorted).2.1
    have h2 := (List.pairwise_cons.mp h1).1
    intro n hn
    exact h2 n hn
  have hpre_ne : ∀ n ∈ pre, SrcNode.path n ≠ p :=
    fun n hn heq => hpre_p (heq ▸ List.mem_map_of_mem SrcNode.path hn)
  have hpost_ne : ∀ n ∈ post, SrcNode.path n ≠ p :=
    fun n hn heq => hpost_p (heq ▸ List.mem_map_of_mem SrcNode.path hn)
  have hpost_su : ∀ n ∈ post, strictUnder (SrcNode.path n) p = false := by
    intro n hn
    cases hb : strictUnder (SrcNode.path n) p with
    | false => rfl
    | true => exact absurd (strictUnder_iff _ _ |>.mp hb) (hrel n hn)
  constructor
  · rw [packFallbackMembers, List.filter_flatMap, List.flatMap_append, List.flatMap_cons]
    rw [show (post.flatMap fun n =>
        (segNode (pre ++ SrcNode.file p sz b mo mt :: post) n).filter
          fun m => decide (m.name = p)) = [] from
      List.flatMap_eq_nil_iff.mpr fun n hn =>
        segNode_filter_name_nil _ n p (hpost_ne n hn) (hpost_su n hn)]
    rw [segNode_file]
    rw [show List.filter (fun m => decide (m.name = p)) [ownMember p sz b mo mt] =
        [ownMember p sz b mo mt] by
      rw [List.filter_cons, if_pos (by simp [ownMember_name])]; rfl]
    rw [List.append_nil]
    exact List.getLast?_concat _
  · rw [packFallbackMembers, List.filter_flatMap, List.flatMap_append, List.flatMap_cons]
    rw [show (post.flatMap fun n =>
        (segNode (pre ++ SrcNode.file p sz b mo mt :: post) n).filter
          fun m => m.paxSparse.isSome && decide (m.name = p)) = [] from
      List.flatMap_eq_nil_iff.mpr fun n hn =>
        segNode_filter_pax_nil _ n p (hpost_ne n hn)]
    rw [show (pre.flatMap fun n =>
        (segNode (pre ++ SrcNode.file p sz b mo mt :: post) n).filter
          fun m => m.paxSparse.isSome && decide (m.name = p)) = [] from
      List.flatMap_eq_nil_iff.mpr fun n hn =>
        segNode_filter_pax_nil _ n p (hpre_ne n hn)]
    rw [segNode_file, List.nil_append, List.append_nil]
    rw [ownMember]
    by_cases h : sz ≤ sparseThreshold
    · rw [if_pos h, if_pos h, List.filter_cons,
        if_neg (by rw [fullMember_pax]; simp)]
      rfl
    · rw [if_neg h, if_neg h, List.filter_cons,
        if_pos (by simp [placeholderMember, ownMember_name])]
      rfl

/-- After the extraction loop of `unpack_dir` over the fallback
writer's members, the staging tree holds, at each file's path, exactly
the node of that file's own member. -/
theorem extract_lookup_fallback (nodes : List SrcNode) (dest p : List String) (sz : Nat)
    (b : Nat → Nat) (mo mt : Nat)
    (hmem : SrcNode.file p sz b mo mt ∈ nodes)
    (hclean : ∀ n ∈ nodes, ∀ c ∈ SrcNode.path n, cleanComp c = true)
    (hnodup : (nodes.map SrcNode.path).Nodup)
    (hsorted : nodes.Pairwise fun x y =>
      ¬(SrcNode.path y <+: SrcNode.path x ∧ SrcNode.path y ≠ SrcNode.path x)) :
    ((packFallbackMembers nodes).foldl (fun acc m => extractOne dest m acc) []).lookup
        (normalize [] dest ++ p) = some (nodeOf (ownMember p sz b mo mt)) := by
  rw [foldl_extract_lookup]
  have hfeq : (packFallbackMembers nodes).filter
      (fun m => decide (resolvedTarget dest m = normalize [] dest ++ p)) =
      (packFallbackMembers nodes).filter fun m => decide (m.name = p) := by
    apply List.filter_congr
    intro m hm
    obtain ⟨habs, n, hn, hname⟩ := mem_packFallback_shape nodes m hm
    rw [resolvedTarget_clean dest m habs fun c hc => hclean n hn c (hname ▸ hc)]
    rw [decide_eq_decide]
    exact ⟨fun h => List.append_cancel_left h, fun h => by rw [h]⟩
  rw [hfeq, (fallback_members_at nodes p sz b mo mt hmem hnodup hsorted).1]

/-- C3, amended to the fallback branch: when `pack_dir_stream` uses its
in-Python tar writer (no FIFO available), a file of size at most 1 MiB
is stored with its full content and restored byte for byte, while a
file over 1 MiB is stored (on its own turn of the iteration) as a
zero-payload placeholder whose `ZIL_SPARSE_SIZE` pax header carries its
decimal size, and after `unpack_dir` the restored file has exactly the
declared size with every byte reading zero. Hypotheses state that the
tree iteration is the sorted `rglob` output: relative clean paths, no
duplicates, and no directory listed after something it contains. -/
theorem c3_fallback_sparse_restore (nodes : List SrcNode) (dest p : List String) (sz : Nat)
    (b : Nat → Nat) (mo mt : Nat)
    (hmem : SrcNode.file p sz b mo mt ∈ nodes)
    (hclean : ∀ n ∈ nodes, ∀ c ∈ SrcNode.path n, cleanComp c = true)
    (hnodup : (nodes.map SrcNode.path).Nodup)
    (hsorted : nodes.Pairwise fun x y =>
      ¬(SrcNode.path y <+: SrcNode.path x ∧ SrcNode.path y ≠ SrcNode.path x))
    (hdest : normalize [] dest ≠ []) :
    ∃ fs, stream_roundtrip false nodes dest = .ok fs ∧
      (sz ≤ sparseThreshold →
        fullMember (.file p sz b mo mt) ∈ packFallbackMembers nodes ∧
        fs.sizeAt (normalize [] dest ++ p) = some sz ∧
        ∀ i, fs.byteAtPath (normalize [] dest ++ p) i = some (b i)) ∧
      (sparseThreshold < sz →
        placeholderMember p sz mo mt ∈ packFallbackMembers nodes ∧
        (placeholderMember p sz mo mt).size = 0 ∧
        (placeholderMember p sz mo mt).paxSparse = some (Nat.repr sz) ∧
        fs.sizeAt (normalize [] dest ++ p) = some sz ∧
        ∀ i, fs.byteAtPath (normalize [] dest ++ p) i = some 0) := by
  have hguard : ∀ m ∈ packFallbackMembers nodes, tarGuard dest m = true := by
    intro m hm
    obtain ⟨habs, n, hn, hname⟩ := mem_packFallback_shape nodes m hm
    exact tarGuard_clean dest m habs (fun c hc => hclean n hn c (hname ▸ hc)) hdest
  have hextract := safe_extract_ok dest (packFallbackMembers nodes) [] hguard
  have hsp_cond : ∀ m ∈ packFallbackMembers nodes, ∀ sp, m.paxSparse = some sp →
      ∃ f, ((packFallbackMembers nodes).foldl
          (fun acc m => extractOne dest m acc) []).lookup (resolvedTarget dest m) =
        some (.file f) := by
    intro m hm sp hpax
    obtain ⟨gp, gsz, gb, gmo, gmt, hgn, hbig, hmeq, hspeq⟩ :=
      pax_mem_packFallback nodes m sp hm hpax
    have habs : m.nameAbs = false := (mem_packFallback_shape nodes m hm).1
    have hname : m.name = gp := by rw [hmeq]; rfl
    have hclean_m : ∀ c ∈ m.name, cleanComp c = true := by
      rw [hname]
      exact fun c hc => hclean _ hgn c hc
    rw [resolvedTarget_clean dest m habs hclean_m, hname,
      extract_lookup_fallback nodes dest gp gsz gb gmo gmt hgn hclean hnodup hsorted,
      nodeOf_ownMember]
    by_cases h : gsz ≤ sparseThreshold
    · exact ⟨⟨gsz, gb⟩, by rw [if_pos h]⟩
    · exact ⟨⟨0, fun _ => 0⟩, by rw [if_neg h]⟩
  have hsparse := sparsePass_ok dest (packFallbackMembers nodes) _ hsp_cond
  refine ⟨(packFallbackMembers nodes).foldl (sparseApplyOne dest)
      ((packFallbackMembers nodes).foldl (fun acc m => extractOne dest m acc) []), ?_, ?_, ?_⟩
  · show (safe_extract dest (packFallbackMembers nodes) []).bind
        (sparsePass dest (packFallbackMembers nodes)) = _
    rw [hextract]
    exact hsparse
  all_goals
    have hlook : ((packFallbackMembers nodes).foldl (sparseApplyOne dest)
        ((packFallbackMembers nodes).foldl (fun acc m => extractOne dest m acc) [])).lookup
          (normalize [] dest ++ p) =
        ((packFallbackMembers nodes).filter
            fun m => m.paxSparse.isSome && decide (m.name = p)).foldl
          (fun v m => truncNodeOpt v m.paxSparse)
          (some (nodeOf (ownMember p sz b mo mt))) := by
      rw [foldl_sparse_lookup]
      have hfeq2 : (packFallbackMembers nodes).filter
          (fun m => m.paxSparse.isSome && decide (resolvedTarget dest m = normalize [] dest ++ p)) =
          (packFallbackMembers nodes).filter
            fun m => m.paxSparse.isSome && decide (m.name = p) := by
        apply List.filter_congr
        intro m hm
        obtain ⟨habs, n, hn, hname⟩ := mem_packFallback_shape nodes m hm
        rw [resolvedTarget_clean dest m habs fun c hc => hclean n hn c (hname ▸ hc)]
        rw [show decide (normalize [] dest ++ m.name = normalize [] dest ++ p)
            = decide (m.name = p) from decide_eq_decide.mpr
          ⟨fun h => List.append_cancel_left h, fun h => by rw [h]⟩]
      rw [hfeq2,
        extract_lookup_fallback nodes dest p sz b mo mt hmem hclean hnodup hsorted]
  · intro hsmall
    rw [(fallback_members_at nodes p sz b mo mt hmem hnodup hsorted).2, if_pos hsmall] at hlook
    refine ⟨?_, ?_, ?_⟩
    · exact List.mem_flatMap.mpr ⟨_, hmem, by
        rw [segNode_file, ownMember, if_pos hsmall]; simp⟩
    · rw [FS.sizeAt, hlook, nodeOf_ownMember, if_pos hsmall]
      rfl
    · intro i
      rw [FS.byteAtPath, hlook, nodeOf_ownMember, if_pos hsmall]
      rfl
  · intro hbig
    have hnle : ¬ sz ≤ sparseThreshold := by omega
    rw [(fallback_members_at nodes p sz b mo mt hmem hnodup hsorted).2, if_neg hnle] at hlook
    rw [nodeOf_ownMember, if_neg hnle,
      show ownMember p sz b mo mt = placeholderMember p sz mo mt from by
        rw [ownMember, if_neg hnle]] at hlook
    rw [show ([placeholderMember p sz mo mt].foldl (fun v m => truncNodeOpt v m.paxSparse)
        (some (FSNode.file ⟨0, fun _ => 0⟩))) =
        some (.file (truncFile ⟨0, fun _ => 0⟩ (pyInt (Nat.repr sz)))) from rfl] at hlook
    refine ⟨?_, rfl, rfl, ?_, ?_⟩
    · exact List.mem_flatMap.mpr ⟨_, hmem, by
        rw [segNode_file, ownMember, if_neg hnle]; simp⟩
    · rw [FS.sizeAt, hlook]
      show some (pyInt (Nat.repr sz)) = some sz
      rw [pyInt_repr]
    · intro i
      rw [FS.byteAtPath, hlook]
      show some (if i < 0 then (0 : Nat) else 0) = some 0
      simp

/-- A concrete sorted tree for the C3 witness: a directory holding one
file a byte over the threshold. -/
def c3nodes : List SrcNode :=
  [.dir ["d"], .file ["d", "big.bin"] 1048577 (fun _ => 7) 420 0]

/-- C3 witness: `c3_fallback_sparse_restore` applied to the concrete
tree `c3nodes`, every hypothesis discharged by computation. -/
theorem c3_fallback_sparse_restore_witness :
    (SrcNode.file ["d", "big.bin"] 1048577 (fun _ => 7) 420 0 ∈ c3nodes) ∧
    normalize [] ["tmp", "out"] ≠ [] ∧
    (∃ fs, stream_roundtrip false c3nodes ["tmp", "out"] = .ok fs ∧
      (1048577 ≤ sparseThreshold →
        fullMember (.file ["d", "big.bin"] 1048577 (fun _ => 7) 420 0) ∈
          packFallbackMembers c3nodes ∧
        fs.sizeAt (normalize [] ["tmp", "out"] ++ ["d", "big.bin"]) = some 1048577 ∧
        ∀ i, fs.byteAtPath (normalize [] ["tmp", "out"] ++ ["d", "big.bin"]) i =
          some ((fun _ => 7) i)) ∧
      (sparseThreshold < 1048577 →
        placeholderMember ["d", "big.bin"] 1048577 420 0 ∈ packFallbackMembers c3nodes ∧
        (placeholderMember ["d", "big.bin"] 1048577 420 0).size = 0 ∧
        (placeholderMember ["d", "big.bin"] 1048577 420 0).paxSparse =
          some (Nat.repr 1048577) ∧
        fs.sizeAt (normalize [] ["tmp", "out"] ++ ["d", "big.bin"]) = some 1048577 ∧
        ∀ i, fs.byteAtPath (normalize [] ["tmp", "out"] ++ ["d", "big.bin"]) i = some 0)) :=
  ⟨List.Mem.tail _ (List.Mem.head _), by decide,
   c3_fallback_sparse_restore c3nodes ["tmp", "out"] ["d", "big.bin"] 1048577
     (fun _ => 7) 420 0
     (List.Mem.tail _ (List.Mem.head _)) (by decide) (by decide) (by decide) (by decide)⟩

/-! ## Container metadata and the mount-time rollback check -/

/-- The metadata header fields this module reads and writes (spec §6).
`none` models an absent key. -/
structure Metadata where
  magic : Option String := none
  label : Option String := none
  latest_snapshot_id : Option String := none
  snapshots : List (String × String) := []
deriving DecidableEq

/-- Python truthiness of `meta.get(key)` for a string-valued key:
false for an absent key and for the empty string. -/
def truthyStr : Option String → Bool
  | none => false
  | some s => !(s == "")

/-- The metadata `ZilantFS.__init__` works from:
`get_metadata(container) if container.exists() else {}`. -/
def effMeta (containerExists : Bool) (meta : Metadata) : Metadata :=
  if containerExists then meta else {}

inductive InitError
  | rollbackDetected
  | unknownDecoyProfile (s : String)
deriving DecidableEq

/-- Staging-directory actions `__init__` can perform after its checks. -/
inductive InitAction
  | unpackContainer
  | populateDecoy (profile : String)
  | mkdirRoot
deriving DecidableEq

/-- The decoy profile names of `_DECOY_PROFILES`. -/
def decoyProfileNames : List String := ["minimal", "adaptive"]

/-- Control flow of `ZilantFS.__init__`: the rollback check runs first
(on the metadata of the container when it exists, `{}` otherwise), then
decoy-profile validation, then the staging directory is populated —
from the decoy profile (read-only), by unpacking the container
(degrading to read-only when the unpack fails, `unpackOk = false`
standing for the external AEAD integrity failure), or as a fresh empty
directory. The result is the `ro` flag or the raised error, paired
with the trace of staging actions performed. -/
def ZilantFS_init (containerExists : Bool) (meta : Metadata) (force : Bool)
    (decoyProfile : Option String) (unpackOk : Bool) :
    Except InitError Bool × List InitAction :=
  let m := effMeta containerExists meta
  if !force && truthyStr m.latest_snapshot_id && !(m.label == m.latest_snapshot_id) then
    (.error .rollbackDetected, [])
  else
    match decoyProfile with
    | some s =>
      if s ∈ decoyProfileNames then (.ok true, [.populateDecoy s])
      else (.error (.unknownDecoyProfile s), [])
    | none =>
      if containerExists then (.ok (!unpackOk), [.unpackContainer])
      else (.ok false, [.mkdirRoot])

/-- C2, counterexample: a container whose `latest_snapshot_id` key is
present but holds the empty string — set, and not equal to the label
`"v1"` — mounts without any rollback error (Python truthiness treats
the empty string like an absent key), against the claim's "raises
RollbackDetected". -/
theorem c2_rollback_empty_string_counterexample :
    ZilantFS_init true ⟨none, some "v1", some "", []⟩ false none true =
      (.ok false, [.unpackContainer]) ∧
    (some "" : Option String) ≠ none ∧
    (some "" : Option String) ≠ some "v1" := by
  refine ⟨rfl, by simp, by simp⟩

/-- C2, amended: with "set" read as "set to a non-empty string" (the
code tests Python truthiness), mounting raises `RollbackDetected`
exactly when, unforced, the effective metadata's `latest_snapshot_id`
is truthy and differs from its `label`; the error is returned before
any staging action — in particular before any unpack, whatever the
unpack outcome would be — and with `force`, or with
`latest_snapshot_id` absent/empty/equal to the label, no rollback
error is raised (a forced plain mount of an existing container
proceeds normally into the unpack). -/
theorem c2_rollback_check (containerExists : Bool) (meta : Metadata) (force : Bool)
    (decoyProfile : Option String) (unpackOk : Bool) :
    (force = false →
      truthyStr (effMeta containerExists meta).latest_snapshot_id = true →
      (effMeta containerExists meta).label ≠ (effMeta containerExists meta).latest_snapshot_id →
      ZilantFS_init containerExists meta force decoyProfile unpackOk =
        (.error .rollbackDetected, [])) ∧
    (truthyStr (effMeta containerExists meta).latest_snapshot_id = false ∨
        (effMeta containerExists meta).label = (effMeta containerExists meta).latest_snapshot_id →
      (ZilantFS_init containerExists meta force decoyProfile unpackOk).1 ≠
        .error .rollbackDetected) ∧
    (force = true →
      (ZilantFS_init containerExists meta force decoyProfile unpackOk).1 ≠
        .error .rollbackDetected) ∧
    (force = true → decoyProfile = none → containerExists = true →
      ZilantFS_init containerExists meta force decoyProfile unpackOk =
        (.ok (!unpackOk), [.unpackContainer])) := by
  refine ⟨?_, ?_, ?_, ?_⟩
  · intro hf ht hne
    rw [ZilantFS_init.eq_def]
    rw [if_pos (by simp [hf, ht, hne])]
  · intro hcond
    rw [ZilantFS_init.eq_def]
    rw [if_neg (by
      simp only [Bool.and_eq_true, Bool.not_eq_true', beq_eq_false_iff_ne, ne_eq,
        not_and, and_imp]
      intro _ htr
      rcases hcond with h | h
      · rw [htr] at h; cases h
      · exact fun hne => absurd h hne)]
    rcases decoyProfile with _ | s
    · by_cases hce : containerExists <;> simp [hce]
    · by_cases hs : s ∈ decoyProfileNames <;> simp [hs]
  · intro hf
    rw [ZilantFS_init.eq_def]
    rw [if_neg (by simp [hf])]
    rcases decoyProfile with _ | s
    · by_cases hce : containerExists <;> simp [hce]
    · by_cases hs : s ∈ decoyProfileNames <;> simp [hs]
  · intro hf hd hce
    subst hf hd hce
    rw [ZilantFS_init.eq_def]
    rw [if_neg (by simp)]
    simp

/-- C2 witness: a stale container (label `"v0"`, latest snapshot
`"v1"`) mounted unforced raises the rollback error with an empty action
trace, and mounted with force it unpacks normally. -/
theorem c2_rollback_check_witness :
    truthyStr (effMeta true ⟨none, some "v0", some "v1", []⟩).latest_snapshot_id = true ∧
    (effMeta true ⟨none, some "v0", some "v1", []⟩).label ≠
      (effMeta true ⟨none, some "v0", some "v1", []⟩).latest_snapshot_id ∧
    ZilantFS_init true ⟨none, some "v0", some "v1", []⟩ false none true =
      (.error .rollbackDetected, []) ∧
    ZilantFS_init true ⟨none, some "v0", some "v1", []⟩ true none true =
      (.ok false, [.unpackContainer]) :=
  ⟨by decide, by decide,
   (c2_rollback_check true ⟨none, some "v0", some "v1", []⟩ false none true).1
     rfl (by decide) (by decide),
   (c2_rollback_check true ⟨none, some "v0", some "v1", []⟩ true none true).2.2.2
     rfl rfl rfl⟩

/-! ## Snapshots: `snapshot_container` -/

/-- The `extra_meta` fields a metadata rewrite supplies; `none` means
the field is not part of the patch. -/
structure MetaPatch where
  label : Option String := none
  latest_snapshot_id : Option String := none
  snapshots : Option (List (String × String)) := none

/-- Modelled from the spec: the rewrite contract of the external
container codec (§4.3) — `rewriteMetadata(container, extraFields)`
re-encrypts the payload unchanged and merges `extraFields` into the
header, supplied fields overriding existing ones. -/
def mergeMeta (m : Metadata) (e : MetaPatch) : Metadata where
  magic := m.magic
  label := match e.label with | some v => some v | none => m.label
  latest_snapshot_id :=
    match e.latest_snapshot_id with | some v => some v | none => m.latest_snapshot_id
  snapshots := match e.snapshots with | some v => v | none => m.snapshots

/-- Python `{**snaps, k: v}`: replace the value at an existing key in
place, or append the new pair. -/
def dictInsert (snaps : List (String × String)) (k v : String) : List (String × String) :=
  if snaps.any fun e => e.1 == k then
    snaps.map fun e => if e.1 == k then (k, v) else e
  else snaps ++ [(k, v)]

/-- `Path.stem` and `Path.suffix` of a file name: split at the last
dot, provided it is neither leading nor trailing. -/
def pyStemSuffix (name : String) : String × String :=
  let cs := name.data
  match ((cs.enum.filter fun e => e.2 == '.').getLast?).map (·.1) with
  | some i =>
    if 0 < i ∧ i + 1 < cs.length then (⟨cs.take i⟩, ⟨cs.drop i⟩) else (name, "")
  | none => (name, "")

/-- `snapshot_container`: reads the source's `snapshots` mapping,
round-trips the content into a new container named
`stem_label.suffix` (whose fresh header the rewrite then stamps with
`label`, `latest_snapshot_id` and the extended `snapshots`), and
rewrites the original's header with the same `latest_snapshot_id` and
`snapshots`. Returns the new name, the snapshot's metadata, and the
source's rewritten metadata; `ts` is `int(time.time())` at the call. -/
def snapshot_container (origName : String) (origMeta : Metadata) (label : String) (ts : Nat) :
    String × Metadata × Metadata :=
  let snaps := origMeta.snapshots
  let newSnaps := dictInsert snaps label (Nat.repr ts)
  let outName := (pyStemSuffix origName).1 ++ "_" ++ label ++ (pyStemSuffix origName).2
  let snapMeta := mergeMeta {} ⟨some label, some label, some newSnaps⟩
  let origMeta' := mergeMeta origMeta ⟨none, some label, some newSnaps⟩
  (outName, snapMeta, origMeta')

theorem dictInsert_mem (snaps : List (String × String)) (k v : String) :
    (k, v) ∈ dictInsert snaps k v := by
  rw [dictInsert]
  by_cases h : snaps.any fun e => e.1 == k
  · rw [if_pos h]
    obtain ⟨e, he, hek⟩ := List.any_eq_true.mp h
    exact List.mem_map.mpr ⟨e, he, by rw [if_pos hek]⟩
  · rw [if_neg h]
    exact List.mem_append.mpr (Or.inr (by simp))

theorem dictInsert_preserves (snaps : List (String × String)) (k v : String)
    (e : String × String) (he : e ∈ snaps) (hne : e.1 ≠ k) :
    e ∈ dictInsert snaps k v := by
  rw [dictInsert]
  by_cases h : snaps.any fun x => x.1 == k
  · rw [if_pos h]
    exact List.mem_map.mpr ⟨e, he, by rw [if_neg (by simpa using hne)]⟩
  · rw [if_neg h]
    exact List.mem_append.mpr (Or.inl he)

/-- C6: `snapshot_container` names the new container from the source's
stem, the label and the source's suffix; stamps `latest_snapshot_id =
label` on both the snapshot and the rewritten original; stamps `label`
on the snapshot; and extends both `snapshots` mappings with the pair
`(label, ts)`, keeping every differently-labelled existing pair. -/
theorem c6_snapshot_metadata (origName : String) (origMeta : Metadata)
    (label : String) (ts : Nat) :
    (snapshot_container origName origMeta label ts).1 =
      (pyStemSuffix origName).1 ++ "_" ++ label ++ (pyStemSuffix origName).2 ∧
    (snapshot_container origName origMeta label ts).2.1.label = some label ∧
    (snapshot_container origName origMeta label ts).2.1.latest_snapshot_id = some label ∧
    (snapshot_container origName origMeta label ts).2.2.latest_snapshot_id = some label ∧
    (snapshot_container origName origMeta label ts).2.2.label = origMeta.label ∧
    (snapshot_container origName origMeta label ts).2.1.snapshots =
      dictInsert origMeta.snapshots label (Nat.repr ts) ∧
    (snapshot_container origName origMeta label ts).2.2.snapshots =
      dictInsert origMeta.snapshots label (Nat.repr ts) ∧
    (label, Nat.repr ts) ∈ (snapshot_container origName origMeta label ts).2.1.snapshots ∧
    (label, Nat.repr ts) ∈ (snapshot_container origName origMeta label ts).2.2.snapshots ∧
    (∀ e ∈ origMeta.snapshots, e.1 ≠ label →
      e ∈ (snapshot_container origName origMeta label ts).2.2.snapshots) := by
  refine ⟨rfl, rfl, rfl, rfl, rfl, rfl, rfl, ?_, ?_, ?_⟩
  · exact dictInsert_mem _ _ _
  · exact dictInsert_mem _ _ _
  · exact fun e he hne => dictInsert_preserves _ _ _ e he hne

/-- C6 witness: snapshotting `cont.zil` with label `v1` at time 7,
over an existing mapping `v0 ↦ 1`. -/
theorem c6_snapshot_metadata_witness :
    (snapshot_container "cont.zil" ⟨some "ZILANT", some "v0", some "v0", [("v0", "1")]⟩
        "v1" 7).1 = "cont_v1.zil" ∧
    ("v0", "1") ∈ (snapshot_container "cont.zil"
        ⟨some "ZILANT", some "v0", some "v0", [("v0", "1")]⟩ "v1" 7).2.2.snapshots ∧
    ("v1", Nat.repr 7) ∈ (snapshot_container "cont.zil"
        ⟨some "ZILANT", some "v0", some "v0", [("v0", "1")]⟩ "v1" 7).2.2.snapshots :=
  ⟨by decide,
   (c6_snapshot_metadata "cont.zil" ⟨some "ZILANT", some "v0", some "v0", [("v0", "1")]⟩
       "v1" 7).2.2.2.2.2.2.2.2.2 ("v0", "1") (by simp) (by simp),
   (c6_snapshot_metadata "cont.zil" ⟨some "ZILANT", some "v0", some "v0", [("v0", "1")]⟩
       "v1" 7).2.2.2.2.2.2.2.2.1⟩

/-! ## `diff_snapshots` -/

/-- `_hash_tree`: the per-file content-hash mapping of an unpacked
tree, keyed by relative path. The tree is the list of the scratch
directory's regular files (relative path, bytes); the cryptographic
digest `H` (`sha256(...).hexdigest()`, an external primitive) is a
parameter. -/
def hashTree (H : List Nat → String) (files : List (List String × List Nat)) :
    List (List String × String) :=
  files.map fun f => (f.1, H f.2)

/-- `h.get(n)` on a hash mapping. -/
def lookupHash (m : List (List String × String)) (p : List String) : Option String :=
  (m.find? fun e => decide (e.1 = p)).map (·.2)

/-- `diff_snapshots` over the two unpacked trees: every path of either
tree whose hash differs between the two sides (`h1.get(n) !=
h2.get(n)`), mapped to `(h1.get(n, ""), h2.get(n, ""))`. The source
iterates `sorted(set(h1) | set(h2))`; the key set is modelled by
order-insensitive deduplication, the claim being about the mapping. -/
def diff_snapshots (H : List Nat → String) (t1 t2 : List (List String × List Nat)) :
    List (List String × (String × String)) :=
  let h1 := hashTree H t1
  let h2 := hashTree H t2
  (((h1.map (·.1) ++ h2.map (·.1)).dedup).filter
      fun n => decide (lookupHash h1 n ≠ lookupHash h2 n)).map
    fun n => (n, ((lookupHash h1 n).getD "", (lookupHash h2 n).getD ""))

theorem lookupHash_ne_empty (H : List Nat → String) (t : List (List String × List Nat))
    (hH : ∀ c, H c ≠ "") (p : List String) (v : String)
    (hv : lookupHash (hashTree H t) p = some v) : v ≠ "" := by
  rw [lookupHash] at hv
  rcases hf : (hashTree H t).find? fun e => decide (e.1 = p) with _ | e
  · rw [hf] at hv; cases hv
  · rw [hf] at hv
    have hmem := List.mem_of_find?_eq_some hf
    obtain ⟨f, _, hfe⟩ := List.mem_map.mp hmem
    have : v = H f.2 := by
      have h2 : e.2 = H f.2 := by rw [← hfe]
      rw [← h2]
      exact (Option.some.inj hv).symm
    rw [this]
    exact hH f.2

theorem lookupHash_mem_keys (h : List (List String × String)) (p : List String)
    (v : String) (hv : lookupHash h p = some v) : p ∈ h.map (·.1) := by
  rw [lookupHash] at hv
  rcases hf : h.find? fun e => decide (e.1 = p) with _ | e
  · rw [hf] at hv; cases hv
  · have hmem := List.mem_of_find?_eq_some hf
    have hp := List.find?_some hf
    simp only [decide_eq_true_eq] at hp
    exact hp ▸ List.mem_map_of_mem (·.1) hmem

/-- C5: membership in `diff_snapshots` is exactly "the two sides' hashes
differ at this path, the missing side read as the empty sentinel", and
the recorded pair is these two (sentinel-defaulted) hashes; a path
hashing equally on both sides (in particular one absent from both) is
omitted. Digests are nonempty strings (a hex digest always is), which
makes the empty string a faithful absent-sentinel. -/
theorem c5_diff_characterization (H : List Nat → String)
    (t1 t2 : List (List String × List Nat)) (p : List String) (x y : String)
    (hH : ∀ c, H c ≠ "") :
    ((p, (x, y)) ∈ diff_snapshots H t1 t2 ↔
      x = (lookupHash (hashTree H t1) p).getD "" ∧
      y = (lookupHash (hashTree H t2) p).getD "" ∧
      (lookupHash (hashTree H t1) p).getD "" ≠ (lookupHash (hashTree H t2) p).getD "") := by
  have hgetD : lookupHash (hashTree H t1) p ≠ lookupHash (hashTree H t2) p →
      (lookupHash (hashTree H t1) p).getD "" ≠ (lookupHash (hashTree H t2) p).getD "" := by
    intro hne
    rcases h1v : lookupHash (hashTree H t1) p with _ | v1 <;>
      rcases h2v : lookupHash (hashTree H t2) p with _ | v2
    · rw [h1v, h2v] at hne; exact absurd rfl hne
    · simp only [Option.getD_none, Option.getD_some]
      exact fun h => lookupHash_ne_empty H t2 hH p v2 h2v h.symm
    · simp only [Option.getD_none, Option.getD_some]
      exact fun h => lookupHash_ne_empty H t1 hH p v1 h1v h
    · simp only [Option.getD_some]
      intro h
      rw [h1v, h2v, h] at hne
      exact hne rfl
  have hoptne : (lookupHash (hashTree H t1) p).getD "" ≠ (lookupHash (hashTree H t2) p).getD "" →
      lookupHash (hashTree H t1) p ≠ lookupHash (hashTree H t2) p := by
    intro hne heq
    rw [heq] at hne
    exact hne rfl
  constructor
  · intro hmem
    obtain ⟨n, hn, hpair⟩ := List.mem_map.mp hmem
    simp only [Prod.mk.injEq] at hpair
    obtain ⟨rfl, hx, hy⟩ := hpair
    have hfil := (List.mem_filter.mp hn).2
    simp only [decide_eq_true_eq] at hfil
    exact ⟨hx.symm, hy.symm, hgetD hfil⟩
  · rintro ⟨hx, hy, hne⟩
    have hone := hoptne hne
    have hkeys : p ∈ (hashTree H t1).map (·.1) ++ (hashTree H t2).map (·.1) := by
      rcases h1v : lookupHash (hashTree H t1) p with _ | v1
      · rcases h2v : lookupHash (hashTree H t2) p with _ | v2
        · rw [h1v, h2v] at hone; exact absurd rfl hone
        · exact List.mem_append.mpr (Or.inr (lookupHash_mem_keys _ p v2 h2v))
      · exact List.mem_append.mpr (Or.inl (lookupHash_mem_keys _ p v1 h1v))
    refine List.mem_map.mpr ⟨p, List.mem_filter.mpr ⟨List.mem_dedup.mpr hkeys, ?_⟩, ?_⟩
    · simpa using hone
    · rw [hx, hy]

/-- C5 witness: the constant digest `"h"` on trees where `b.txt` exists
only on the first side — the diff contains exactly that path, paired
with `("h", "")`. -/
theorem c5_diff_characterization_witness :
    (∀ c : List Nat, (fun _ : List Nat => "h") c ≠ "") ∧
    ((["b.txt"], ("h", "")) ∈
      diff_snapshots (fun _ => "h") [(["a.txt"], [1]), (["b.txt"], [2])] [(["a.txt"], [1])]) :=
  ⟨fun _ => (by decide : "h" ≠ ""),
   (c5_diff_characterization (fun _ => "h") [(["a.txt"], [1]), (["b.txt"], [2])]
       [(["a.txt"], [1])] ["b.txt"] "h" "" (fun _ => (by decide : "h" ≠ ""))).mpr (by decide)⟩

/-! ## `_read_meta`: bounded header scan and lenient parse -/

def isWsB (b : Nat) : Bool :=
  b == 32 || b == 9 || b == 10 || b == 13

def skipWs : List Nat → List Nat
  | [] => []
  | b :: rest => if isWsB b then skipWs rest else b :: rest

/-- Bytes of a JSON string literal up to its closing quote (escape
sequences are outside the modelled subset; the header writer emits
none). -/
def parseJStrGo : List Nat → List Char → Option (String × List Nat)
  | [], _ => none
  | b :: rest, acc =>
    if b == 34 then some (⟨acc.reverse⟩, rest)
    else if b == 92 then none
    else parseJStrGo rest (Char.ofNat b :: acc)

/-- A JSON value of the subset the container header uses. -/
inductive JVal
  | str : String → JVal
  | obj : List (String × String) → JVal
deriving DecidableEq

/-- Key/value pairs of a string-valued object, after its `{`. -/
def parseFlatPairs : Nat → List Nat → Option (List (String × String) × List Nat)
  | 0, _ => none
  | fuel + 1, bs =>
    match skipWs bs with
    | 34 :: r1 =>
      match parseJStrGo r1 [] with
      | none => none
      | some (k, r2) =>
        match skipWs r2 with
        | 58 :: r3 =>
          match skipWs r3 with
          | 34 :: r4 =>
            match parseJStrGo r4 [] with
            | none => none
            | some (v, r5) =>
              match skipWs r5 with
              | 44 :: r6 =>
                match parseFlatPairs fuel r6 with
                | some (tl, r7) => some ((k, v) :: tl, r7)
                | none => none
              | 125 :: r6 => some ([(k, v)], r6)
              | _ => none
          | _ => none
        | _ => none
    | _ => none

/-- One value of the top-level object: a string, or a string-valued
object (the `snapshots` mapping). -/
def parseTopValue (fuel : Nat) (bs : List Nat) : Option (JVal × List Nat) :=
  match skipWs bs with
  | 34 :: r => (parseJStrGo r []).map fun kv => (.str kv.1, kv.2)
  | 123 :: r =>
    match skipWs r with
    | 125 :: r2 => some (.obj [], r2)
    | _ => (parseFlatPairs fuel r).map fun kv => (.obj kv.1, kv.2)
  | _ => none

/-- Key/value pairs of the top-level object, after its `{`. -/
def parseTopPairs : Nat → List Nat → Option (List (String × JVal) × List Nat)
  | 0, _ => none
  | fuel + 1, bs =>
    match skipWs bs with
    | 34 :: r1 =>
      match parseJStrGo r1 [] with
      | none => none
      | some (k, r2) =>
        match skipWs r2 with
        | 58 :: r3 =>
          match parseTopValue fuel r3 with
          | none => none
          | some (v, r4) =>
            match skipWs r4 with
            | 44 :: r5 =>
              match parseTopPairs fuel r5 with
              | some (tl, r6) => some ((k, v) :: tl, r6)
              | none => none
            | 125 :: r5 => some ([(k, v)], r5)
            | _ => none
        | _ => none
    | _ => none

/-- Modelled from the spec: `json.loads` of the host JSON codec (an
external collaborator; spec §6 fixes the header to "a JSON metadata
object, UTF-8"). Modelled on the subset the header uses — an object of
string keys whose values are strings or one string-valued object —
rejecting all other byte sequences, in particular anything not opening
with `{` and anything with trailing bytes. -/
def jsonLoads (bs : List Nat) : Option (List (String × JVal)) :=
  match skipWs bs with
  | 123 :: rest =>
    match skipWs rest with
    | 125 :: r2 => if skipWs r2 = [] then some [] else none
    | _ =>
      match parseTopPairs (bs.length + 1) rest with
      | some (fields, r) => if skipWs r = [] then some fields else none
      | none => none
  | _ => none

def jLookup (fields : List (String × JVal)) (k : String) : Option JVal :=
  (fields.find? fun e => e.1 == k).map (·.2)

def jStr : Option JVal → Option String
  | some (.str s) => some s
  | _ => none

/-- The `Metadata` view of a parsed header object. -/
def metadataOfFields (fields : List (String × JVal)) : Metadata where
  magic := jStr (jLookup fields "magic")
  label := jStr (jLookup fields "label")
  latest_snapshot_id := jStr (jLookup fields "latest_snapshot_id")
  snapshots := match jLookup fields "snapshots" with | some (.obj l) => l | _ => []

/-- `header.endswith(b"\n\n")`, on the reversed accumulator. -/
def endsNN : List Nat → Bool
  | b2 :: b1 :: _ => b2 == 10 && b1 == 10
  | _ => false

/-- The byte-at-a-time scan loop of `_read_meta`:
`while not header.endswith(b"\n\n") and len(header) < 4096`, reading
one byte per turn and stopping at end of file. The accumulator is
kept reversed with its length alongside. -/
def scanHeaderGo : List Nat → List Nat → Nat → List Nat
  | [], accRev, _ => accRev.reverse
  | b :: rest, accRev, len =>
    if endsNN accRev || decide (4096 ≤ len) then accRev.reverse
    else scanHeaderGo rest (b :: accRev) (len + 1)

def scanHeader (bs : List Nat) : List Nat :=
  scanHeaderGo bs [] 0

/-- `_read_meta`: scan the bounded header, parse `header[:-2]` as JSON,
and on any parse failure return the empty metadata (the code catches
every exception and returns `{}`). -/
def read_meta (bs : List Nat) : Metadata :=
  match jsonLoads ((scanHeader bs).take ((scanHeader bs).length - 2)) with
  | some fields => metadataOfFields fields
  | none => {}

theorem scanHeaderGo_length (rest : List Nat) : ∀ accRev,
    accRev.length ≤ 4096 →
    (scanHeaderGo rest accRev accRev.length).length ≤ 4096 := by
  induction rest with
  | nil =>
    intro accRev h
    show accRev.reverse.length ≤ 4096
    simpa using h
  | cons b rest ih =>
    intro accRev h
    rw [scanHeaderGo]
    by_cases hstop : (endsNN accRev || decide (4096 ≤ accRev.length)) = true
    · rw [if_pos hstop]
      simpa using h
    · rw [if_neg hstop]
      have hlt : accRev.length < 4096 := by
        rcases Nat.lt_or_ge accRev.length 4096 with h1 | h1
        · exact h1
        · exact absurd (by simp [h1]) hstop
      have := ih (b :: accRev) (by simp only [List.length_cons]; omega)
      simpa using this

theorem scanHeaderGo_prefix (rest : List Nat) : ∀ accRev len,
    scanHeaderGo rest accRev len <+: accRev.reverse ++ rest := by
  induction rest with
  | nil =>
    intro accRev len
    rw [scanHeaderGo, List.append_nil]
  | cons b rest ih =>
    intro accRev len
    rw [scanHeaderGo]
    by_cases hstop : (endsNN accRev || decide (4096 ≤ len)) = true
    · rw [if_pos hstop]
      exact List.prefix_append _ _
    · rw [if_neg hstop]
      have := ih (b :: accRev) (len + 1)
      rw [List.reverse_cons, List.append_assoc] at this
      exact this

/-- C8, amended: the header scan reads at most 4096 bytes (a prefix of
the container), and when the scanned header fails to parse — in
particular when the blank-line terminator was not found within the
bound — `_read_meta` returns the empty metadata rather than raising a
`FormatError`: the parse failure is swallowed. -/
theorem c8_read_meta_bounded_lenient :
    (∀ bs : List Nat, (scanHeader bs).length ≤ 4096) ∧
    (∀ bs : List Nat, scanHeader bs <+: bs) ∧
    (∀ bs : List Nat,
      jsonLoads ((scanHeader bs).take ((scanHeader bs).length - 2)) = none →
      read_meta bs = {}) := by
  refine ⟨?_, ?_, ?_⟩
  · intro bs
    have := scanHeaderGo_length bs [] (by simp)
    simpa [scanHeader] using this
  · intro bs
    have := scanHeaderGo_prefix bs [] 0
    simpa [scanHeader] using this
  · intro bs h
    rw [read_meta, h]

/-- C8, counterexample: a 5000-byte container with no blank line in its
first 4096 bytes — the claim says reading its metadata fails with a
`FormatError`; the code instead returns the empty metadata `{}`,
raising nothing (the function is total). -/
theorem endsNN_cons_ne (c : Nat) (hc : (c == 10) = false) (l : List Nat) :
    endsNN (c :: l) = false := by
  cases l with
  | nil => rfl
  | cons b t => simp [endsNN, hc]

/-- The scan of a terminator-free byte run: it consumes bytes until the
4096 bound (or the end of the run). -/
theorem scanHeaderGo_no_terminator (c : Nat) (hc : (c == 10) = false) :
    ∀ (n : Nat) (accRev : List Nat) (len : Nat), len = accRev.length →
      endsNN accRev = false →
      scanHeaderGo (List.replicate n c) accRev len =
        accRev.reverse ++ List.replicate (min n (4096 - len)) c := by
  intro n
  induction n with
  | zero =>
    intro accRev len _ _
    simp [scanHeaderGo, List.replicate]
  | succ n ih =>
    intro accRev len hlen hends
    rw [List.replicate_succ, scanHeaderGo, hends]
    by_cases hfull : 4096 ≤ len
    · rw [if_pos (by simp [hfull])]
      rw [show (4096 - len) = 0 from by omega]
      simp
    · rw [if_neg (by simp [hfull])]
      rw [ih (c :: accRev) (len + 1) (by simp [hlen]) (endsNN_cons_ne c hc accRev)]
      rw [List.reverse_cons, List.append_assoc]
      rw [show min (n + 1) (4096 - len) = min n (4096 - (len + 1)) + 1 from by omega]
      rw [List.replicate_succ]
      rfl

/-- C8, counterexample: a 5000-byte container with no blank line in its
first 4096 bytes — the claim says reading its metadata fails with a
`FormatError`; the code instead returns the empty metadata `{}`,
raising nothing (the function is total). -/
theorem c8_oversized_header_counterexample :
    read_meta (List.replicate 5000 65) = ({} : Metadata) ∧ 4096 < 5000 := by
  have h1 : scanHeader (List.replicate 5000 65) = List.replicate 4096 65 := by
    have h := scanHeaderGo_no_terminator 65 (by decide) 5000 [] 0 rfl rfl
    rw [show min 5000 (4096 - 0) = 4096 from by norm_num] at h
    rw [scanHeader, h]
    rfl
  constructor
  · rw [read_meta, h1, List.length_replicate]
    rw [show (4096 - 2 : Nat) = 4094 from rfl, List.take_replicate]
    rw [show min 4094 4096 = 4094 from by norm_num]
    rw [show List.replicate 4094 65 = 65 :: List.replicate 4093 65 from rfl]
    rfl
  · norm_num

/-- C8 witness: a 300-byte junk header parses to `none` and
`_read_meta` returns the empty metadata, by the amended theorem. -/
theorem c8_read_meta_bounded_lenient_witness :
    jsonLoads ((scanHeader (List.replicate 300 66)).take
        ((scanHeader (List.replicate 300 66)).length - 2)) = none ∧
    read_meta (List.replicate 300 66) = {} := by
  have h1 : scanHeader (List.replicate 300 66) = List.replicate 300 66 := by
    have h := scanHeaderGo_no_terminator 66 (by decide) 300 [] 0 rfl rfl
    rw [show min 300 (4096 - 0) = 300 from by norm_num] at h
    rw [scanHeader, h]
    rfl
  have h2 : jsonLoads ((scanHeader (List.replicate 300 66)).take
      ((scanHeader (List.replicate 300 66)).length - 2)) = none := by
    rw [h1, List.length_replicate, List.take_replicate]
    rw [show min (300 - 2) 300 = 298 from by norm_num]
    rw [show List.replicate 298 66 = 66 :: List.replicate 297 66 from rfl]
    rfl
  exact ⟨h2, c8_read_meta_bounded_lenient.2.2 (List.replicate 300 66) h2⟩

/-! ## `throughput_mb_s` -/

/-- The byte counter and interval timer of a session. Clock readings
are exact rationals (the claim's floating-point tolerance is beside
the divergence at issue, which is a factor-of-two clamp). -/
structure ThroughputState where
  bytes_rw : Nat
  start : ℚ
deriving DecidableEq

/-- `throughput_mb_s`: `dur = max(now - start, 1e-3)`,
`mb = bytes / 2^20`, reset counter and timer, return `mb / dur`.
`now` is the `time.time()` reading at the call (the two successive
readings of the source collapse to one). -/
def throughput_mb_s (st : ThroughputState) (now : ℚ) : ℚ × ThroughputState :=
  let dur := max (now - st.start) (1 / 1000)
  let mb := (st.bytes_rw : ℚ) / (1024 * 1024)
  (mb / dur, ⟨0, now⟩)

/-- C9, amended: the call returns `bytes / 2^20` divided by the elapsed
time clamped from below at one millisecond — equal to the claim's
`N / 2^20 / elapsed` exactly when at least a millisecond has elapsed —
and resets the counter to 0 and the timer to the current reading. -/
theorem c9_throughput_clamped (st : ThroughputState) (now : ℚ) :
    (throughput_mb_s st now).2 = ⟨0, now⟩ ∧
    (throughput_mb_s st now).1 =
      ((st.bytes_rw : ℚ) / (1024 * 1024)) / max (now - st.start) (1 / 1000) ∧
    (1 / 1000 ≤ now - st.start →
      (throughput_mb_s st now).1 = ((st.bytes_rw : ℚ) / (1024 * 1024)) / (now - st.start)) := by
  refine ⟨rfl, rfl, ?_⟩
  intro h
  show ((st.bytes_rw : ℚ) / (1024 * 1024)) / max (now - st.start) (1 / 1000) = _
  rw [max_eq_left h]

/-- C9 witness: 2 MiB moved over a full second reports 2 MB/s and
resets the state. -/
theorem c9_throughput_clamped_witness :
    ((1 : ℚ) / 1000 ≤ 1 - 0) ∧
    (throughput_mb_s ⟨2097152, 0⟩ 1).1 = ((2097152 : ℚ) / (1024 * 1024)) / (1 - 0) ∧
    (throughput_mb_s ⟨2097152, 0⟩ 1).2 = ⟨0, 1⟩ :=
  ⟨by norm_num,
   (c9_throughput_clamped ⟨2097152, 0⟩ 1).2.2 (by norm_num),
   (c9_throughput_clamped ⟨2097152, 0⟩ 1).1⟩

/-- C9, counterexample: 1 MiB moved over half a millisecond. The claim's
formula gives 2000 MB/s; the code clamps the duration at 1 ms and
reports 1000 MB/s. -/
theorem c9_throughput_counterexample :
    (throughput_mb_s ⟨1048576, 0⟩ (1 / 2000)).1 = 1000 ∧
    ((1048576 : ℚ) / (1024 * 1024)) / ((1 / 2000 : ℚ) - 0) = 2000 ∧
    (1000 : ℚ) ≠ 2000 := by
  refine ⟨?_, by norm_num, by norm_num⟩
  show ((1048576 : ℚ) / (1024 * 1024)) / max ((1 / 2000 : ℚ) - 0) (1 / 1000) = 1000
  rw [max_eq_right (by norm_num : ((1 / 2000 : ℚ) - 0) ≤ 1 / 1000)]
  norm_num

/-! ## The `ZilantFS` operation layer (staging directory ops) -/

/-- Errno-style failures of the operation layer. `eacces` is what
`_rw_check`'s `FuseOSError(errno.EACCES)` carries (the spec's
`PermissionError`). -/
inductive OsError
  | eacces
  | enoent
  | eexist
  | eisdir
  | enotdir
  | enotempty
  | ebadf
deriving DecidableEq

/-- A live session: the read-only flag, the staging tree (keyed by
root-relative path, as `_full` resolves op paths under `self.root`),
the open-descriptor table, the next descriptor, and the byte counter.
Op paths are carried pre-split into components (`_full`'s
`lstrip("/")` plus join). -/
structure OpState where
  ro : Bool
  fs : FS
  fdPaths : List (Nat × List String)
  nextFd : Nat
  bytes_rw : Nat

def isDirAt (fs : FS) (p : List String) : Bool :=
  match fs.lookup p with
  | some .dir => true
  | _ => false

/-- Does the parent directory of `p` exist (the root always does)? -/
def parentOk (fs : FS) (p : List String) : Bool :=
  decide (p.dropLast = []) || isDirAt fs p.dropLast

/-- Open flags of interest to the embedded ops. -/
structure OpenFlags where
  wronly : Bool
  rdwr : Bool
  creat : Bool
  trunc : Bool

def FS.remove (fs : FS) (p : List String) : FS :=
  fs.filter fun e => decide (e.1 ≠ p)

/-- `os.write` at an offset: bytes below the offset (or in the hole
beyond the old size) read as before/zero. -/
def writeAt (f : TFile) (data : List Nat) (offset : Nat) : TFile :=
  ⟨max f.size (offset + data.length),
   fun i =>
     if offset ≤ i ∧ i < offset + data.length then data.getD (i - offset) 0
     else if i < f.size then f.byteAt i else 0⟩

/-- `ZilantFS.create`: write-checked; `os.open(..., O_WRONLY | O_CREAT
| O_TRUNC, mode)` truncates/creates the file and returns a fresh
descriptor. -/
def ZilantFS_create (st : OpState) (p : List String) (_mode : Nat) :
    Except OsError Nat × OpState :=
  if st.ro then (.error .eacces, st)
  else if !parentOk st.fs p then (.error .enoent, st)
  else
    match st.fs.lookup p with
    | some .dir => (.error .eisdir, st)
    | _ =>
      (.ok st.nextFd,
       { st with fs := st.fs.set p (.file ⟨0, fun _ => 0⟩),
                 fdPaths := (st.nextFd, p) :: st.fdPaths,
                 nextFd := st.nextFd + 1 })

/-- `ZilantFS.open`: NOT write-checked — `os.open(self._full(path),
flags)` runs whatever the flags say; `O_TRUNC` empties an existing
file even on a read-only session. -/
def ZilantFS_open (st : OpState) (p : List String) (fl : OpenFlags) :
    Except OsError Nat × OpState :=
  match st.fs.lookup p with
  | some (.file f) =>
    (.ok st.nextFd,
     { st with fs := if fl.trunc then st.fs.set p (.file ⟨0, fun _ => 0⟩) else st.fs,
               fdPaths := (st.nextFd, p) :: st.fdPaths,
               nextFd := st.nextFd + 1 })
  | some .dir =>
    if fl.wronly || fl.rdwr then (.error .eisdir, st)
    else (.ok st.nextFd,
          { st with fdPaths := (st.nextFd, p) :: st.fdPaths, nextFd := st.nextFd + 1 })
  | none =>
    if fl.creat then
      if !parentOk st.fs p then (.error .enoent, st)
      else (.ok st.nextFd,
            { st with fs := st.fs.set p (.file ⟨0, fun _ => 0⟩),
                      fdPaths := (st.nextFd, p) :: st.fdPaths,
                      nextFd := st.nextFd + 1 })
    else (.error .enoent, st)

/-- `ZilantFS.read`: not write-checked; returns the bytes and adds
their count to the running counter. -/
def ZilantFS_read (st : OpState) (size offset fh : Nat) :
    Except OsError (List Nat) × OpState :=
  match (st.fdPaths.find? fun e => e.1 == fh).map (·.2) with
  | none => (.error .ebadf, st)
  | some q =>
    match st.fs.lookup q with
    | some (.file f) =>
      let data := (List.range (min size (f.size - offset))).map fun i => f.byteAt (offset + i)
      (.ok data, { st with bytes_rw := st.bytes_rw + data.length })
    | _ => (.error .ebadf, st)

/-- `ZilantFS.write`: write-checked; writes at the offset through the
descriptor and adds the written count to the running counter. -/
def ZilantFS_write (st : OpState) (data : List Nat) (offset fh : Nat) :
    Except OsError Nat × OpState :=
  if st.ro then (.error .eacces, st)
  else
    match (st.fdPaths.find? fun e => e.1 == fh).map (·.2) with
    | none => (.error .ebadf, st)
    | some q =>
      match st.fs.lookup q with
      | some (.file f) =>
        (.ok data.length,
         { st with fs := st.fs.set q (.file (writeAt f data offset)),
                   bytes_rw := st.bytes_rw + data.length })
      | _ => (.error .ebadf, st)

/-- `ZilantFS.truncate`: write-checked; `_truncate_file` needs an
existing regular file. -/
def ZilantFS_truncate (st : OpState) (p : List String) (length : Nat) :
    Except OsError Unit × OpState :=
  if st.ro then (.error .eacces, st)
  else
    match st.fs.lookup p with
    | some (.file f) => (.ok (), { st with fs := st.fs.set p (.file (truncFile f length)) })
    | some .dir => (.error .eisdir, st)
    | none => (.error .enoent, st)

/-- `ZilantFS.unlink`: write-checked. -/
def ZilantFS_unlink (st : OpState) (p : List String) : Except OsError Unit × OpState :=
  if st.ro then (.error .eacces, st)
  else
    match st.fs.lookup p with
    | some (.file _) => (.ok (), { st with fs := st.fs.remove p })
    | some .dir => (.error .eisdir, st)
    | none => (.error .enoent, st)

/-- `ZilantFS.mkdir`: write-checked. -/
def ZilantFS_mkdir (st : OpState) (p : List String) (_mode : Nat) :
    Except OsError Unit × OpState :=
  if st.ro then (.error .eacces, st)
  else
    match st.fs.lookup p with
    | some _ => (.error .eexist, st)
    | none =>
      if !parentOk st.fs p then (.error .enoent, st)
      else (.ok (), { st with fs := st.fs.set p .dir })

/-- `ZilantFS.rmdir`: write-checked; the directory must exist and be
empty. -/
def ZilantFS_rmdir (st : OpState) (p : List String) : Except OsError Unit × OpState :=
  if st.ro then (.error .eacces, st)
  else
    match st.fs.lookup p with
    | none => (.error .enoent, st)
    | some (.file _) => (.error .enotdir, st)
    | some .dir =>
      if st.fs.any fun e => p.isPrefixOf e.1 && decide (e.1 ≠ p) then (.error .enotempty, st)
      else (.ok (), { st with fs := st.fs.remove p })

/-- `ZilantFS.rename`: write-checked; moves the source subtree onto the
target path (an existing target subtree is discarded, as the overwrite
of `os.rename`). -/
def ZilantFS_rename (st : OpState) (old new : List String) :
    Except OsError Unit × OpState :=
  if st.ro then (.error .eacces, st)
  else
    match st.fs.lookup old with
    | none => (.error .enoent, st)
    | some _ =>
      (.ok (),
       { st with fs := (st.fs.filter fun e => !(new.isPrefixOf e.1)).map fun e =>
           if old.isPrefixOf e.1 then (new ++ e.1.drop old.length, e.2) else e })

/-! ## C4: the read-only gate on write-class operations -/

/-- C4: on a read-only session every write-class operation — create,
write, truncate, unlink, mkdir, rmdir, rename — returns the
permission error (`FuseOSError(EACCES)`, the spec's `PermissionError`)
and leaves the session state, staging tree included, untouched; on a
writable session none of these operations ever produces that
permission error. -/
theorem c4_ro_write_gate (st : OpState) (p p2 : List String) (mode : Nat)
    (data : List Nat) (offset fh length : Nat) :
    (st.ro = true →
      ZilantFS_create st p mode = (.error .eacces, st) ∧
      ZilantFS_write st data offset fh = (.error .eacces, st) ∧
      ZilantFS_truncate st p length = (.error .eacces, st) ∧
      ZilantFS_unlink st p = (.error .eacces, st) ∧
      ZilantFS_mkdir st p mode = (.error .eacces, st) ∧
      ZilantFS_rmdir st p = (.error .eacces, st) ∧
      ZilantFS_rename st p p2 = (.error .eacces, st)) ∧
    (st.ro = false →
      (ZilantFS_create st p mode).1 ≠ .error .eacces ∧
      (ZilantFS_write st data offset fh).1 ≠ .error .eacces ∧
      (ZilantFS_truncate st p length).1 ≠ .error .eacces ∧
      (ZilantFS_unlink st p).1 ≠ .error .eacces ∧
      (ZilantFS_mkdir st p mode).1 ≠ .error .eacces ∧
      (ZilantFS_rmdir st p).1 ≠ .error .eacces ∧
      (ZilantFS_rename st p p2).1 ≠ .error .eacces) := by
  constructor
  · intro h
    refine ⟨?_, ?_, ?_, ?_, ?_, ?_, ?_⟩ <;>
      simp only [ZilantFS_create, ZilantFS_write, ZilantFS_truncate, ZilantFS_unlink,
        ZilantFS_mkdir, ZilantFS_rmdir, ZilantFS_rename, h, if_true]
  · intro h
    refine ⟨?_, ?_, ?_, ?_, ?_, ?_, ?_⟩ <;>
      simp only [ZilantFS_create, ZilantFS_write, ZilantFS_truncate, ZilantFS_unlink,
        ZilantFS_mkdir, ZilantFS_rmdir, ZilantFS_rename, h, Bool.false_eq_true, if_false] <;>
      (repeat' split) <;>
      first
        | exact fun hc => Except.noConfusion hc
        | exact fun hc => absurd (Except.error.inj hc) (by decide)

/-- C4 witness: a read-only and a writable session over an empty
staging tree. -/
theorem c4_ro_write_gate_witness :
    ZilantFS_create ⟨true, [], [], 0, 0⟩ ["f.txt"] 420 =
      (.error .eacces, ⟨true, [], [], 0, 0⟩) ∧
    ZilantFS_rename ⟨true, [], [], 0, 0⟩ ["a"] ["b"] =
      (.error .eacces, ⟨true, [], [], 0, 0⟩) ∧
    (ZilantFS_create ⟨false, [], [], 0, 0⟩ ["f.txt"] 420).1 ≠ .error .eacces ∧
    (ZilantFS_rename ⟨false, [], [], 0, 0⟩ ["a"] ["b"]).1 ≠ .error .eacces :=
  ⟨((c4_ro_write_gate ⟨true, [], [], 0, 0⟩ ["f.txt"] ["b"] 420 [] 0 0 0).1 rfl).1,
   ((c4_ro_write_gate ⟨true, [], [], 0, 0⟩ ["a"] ["b"] 420 [] 0 0 0).1 rfl).2.2.2.2.2.2,
   ((c4_ro_write_gate ⟨false, [], [], 0, 0⟩ ["f.txt"] ["b"] 420 [] 0 0 0).2 rfl).1,
   ((c4_ro_write_gate ⟨false, [], [], 0, 0⟩ ["a"] ["b"] 420 [] 0 0 0).2 rfl).2.2.2.2.2.2⟩

/-! ## C10: `open` skips the read-only gate -/

/-- C10: `ZilantFS.open` never calls `_rw_check`: on a read-only
session, opening an existing file with write-enabled flags including
`O_TRUNC` succeeds, returns the next descriptor, and truncates the
file's content to zero bytes — the read-only gate applies only to the
operations that call the write check, not to `open`. -/
theorem c10_open_no_rw_check (st : OpState) (p : List String) (f : TFile)
    (fl : OpenFlags) (hro : st.ro = true) (hfile : st.fs.lookup p = some (.file f))
    (htr : fl.trunc = true) :
    (ZilantFS_open st p fl).1 = .ok st.nextFd ∧
    (ZilantFS_open st p fl).2.fs.lookup p = some (.file ⟨0, fun _ => 0⟩) ∧
    (ZilantFS_open st p fl).1 ≠ .error .eacces := by
  rw [ZilantFS_open.eq_def, hfile]
  refine ⟨rfl, ?_, fun hc => Except.noConfusion hc⟩
  show (if fl.trunc then st.fs.set p (.file ⟨0, fun _ => 0⟩) else st.fs).lookup p = _
  rw [htr, if_pos rfl, FS.lookup_set, if_pos rfl]

/-- C10 witness: a read-only session holding `f.txt` with three bytes;
`open` with `O_WRONLY | O_TRUNC` succeeds and empties it. -/
theorem c10_open_no_rw_check_witness :
    (⟨true, [(["f.txt"], .file ⟨3, fun _ => 7⟩)], [], 5, 0⟩ : OpState).fs.lookup ["f.txt"] =
      some (.file ⟨3, fun _ => 7⟩) ∧
    (ZilantFS_open ⟨true, [(["f.txt"], .file ⟨3, fun _ => 7⟩)], [], 5, 0⟩ ["f.txt"]
        ⟨true, false, false, true⟩).1 = .ok 5 ∧
    (ZilantFS_open ⟨true, [(["f.txt"], .file ⟨3, fun _ => 7⟩)], [], 5, 0⟩ ["f.txt"]
        ⟨true, false, false, true⟩).2.fs.lookup ["f.txt"] = some (.file ⟨0, fun _ => 0⟩) :=
  ⟨rfl,
   (c10_open_no_rw_check ⟨true, [(["f.txt"], .file ⟨3, fun _ => 7⟩)], [], 5, 0⟩ ["f.txt"]
       ⟨3, fun _ => 7⟩ ⟨true, false, false, true⟩ rfl rfl rfl).1,
   (c10_open_no_rw_check ⟨true, [(["f.txt"], .file ⟨3, fun _ => 7⟩)], [], 5, 0⟩ ["f.txt"]
       ⟨3, fun _ => 7⟩ ⟨true, false, false, true⟩ rfl rfl rfl).2.1⟩

/-! ## `ZilantFS.destroy` -/

/-- A container on disk: the archive packed into it and the transport
that produced it. -/
inductive PackedContainer
  | buffered : List SrcNode → PackedContainer
  | streamed : List SrcNode → PackedContainer

/-- The state `destroy` touches: the session's read-only flag, the
`ZILANT_STREAM` toggle, the staging directory (existence and tree),
whether the container's parent directory still exists (deleting it is
the missing-destination case), the container, the process-wide
`ACTIVE_FS` registry (session ids) and this session's id. -/
structure DestroyWorld where
  ro : Bool
  streamToggle : Bool
  rootExists : Bool
  rootTree : List SrcNode
  destParentExists : Bool
  container : Option PackedContainer
  registry : List Nat
  selfId : Nat

/-- `list.remove` with the `ValueError` swallowed: drop the first
occurrence, or do nothing. -/
def removeFirst : List Nat → Nat → List Nat
  | [], _ => []
  | x :: rest, a => if x == a then rest else x :: removeFirst rest a

/-- `pack_dir(root, container)`: raises `FileNotFoundError` — which
`destroy` swallows, leaving the container as it was — when the source
is missing (its own `src.exists()` check) or the destination's
directory is gone (the external write); otherwise replaces the
container with a buffered pack of the staging tree. -/
def pack_dir_effect (w : DestroyWorld) : DestroyWorld :=
  if w.rootExists && w.destParentExists then
    { w with container := some (.buffered w.rootTree) }
  else w

/-- `pack_dir_stream(root, container)`: no source-existence check. A
missing staging directory is iterated as empty — `rglob` on a missing
directory yields nothing, and on the FIFO branch the external `tar`
exits on its failed chdir after opening the FIFO — so an archive of an
empty tree is packed over the container; only the missing destination
directory raises (and is swallowed by `destroy`). -/
def pack_dir_stream_effect (w : DestroyWorld) : DestroyWorld :=
  if w.destParentExists then
    { w with container := some (.streamed (if w.rootExists then w.rootTree else [])) }
  else w

/-- `ZilantFS.destroy`: if writable, re-pack the staging directory into
the container (streamed under the toggle, buffered otherwise),
swallowing a missing-path error; release the staging directory
(tolerantly); remove the session from the registry (tolerating
not-found). -/
def ZilantFS_destroy (w : DestroyWorld) : DestroyWorld :=
  let w1 := if w.ro then w
            else if w.streamToggle then pack_dir_stream_effect w else pack_dir_effect w
  let w2 := { w1 with rootExists := false }
  { w2 with registry := removeFirst w2.registry w.selfId }

/-- A writable session with the streaming toggle set, one file in its
staging tree, and itself registered. -/
def c7world : DestroyWorld :=
  { ro := false, streamToggle := true, rootExists := true,
    rootTree := [.file ["a.txt"] 3 (fun _ => 7) 420 0], destParentExists := true,
    container := some (.buffered [.file ["a.txt"] 3 (fun _ => 7) 420 0]),
    registry := [7], selfId := 7 }

/-- C7: `destroy` is not idempotent. The first call packs the staging
tree, releases the staging directory and empties the registry — but a
second call, with the toggle set on a writable session, runs
`pack_dir_stream` over the now-missing staging directory, which has no
source-existence check and so overwrites the container with an archive
of an empty tree: a further (destructive) effect, against the claim
and the function's own "(idempotent)" docstring. (With the toggle
unset, `pack_dir`'s `src.exists()` check raises the swallowed
`FileNotFoundError` and the second call really is a no-op.) -/
theorem c7_destroy_second_call_repacks_empty :
    (ZilantFS_destroy c7world).container =
      some (.streamed [.file ["a.txt"] 3 (fun _ => 7) 420 0]) ∧
    (ZilantFS_destroy c7world).rootExists = false ∧
    (ZilantFS_destroy c7world).registry = [] ∧
    (ZilantFS_destroy (ZilantFS_destroy c7world)).container = some (.streamed []) ∧
    ZilantFS_destroy (ZilantFS_destroy c7world) ≠ ZilantFS_destroy c7world ∧
    ZilantFS_destroy (ZilantFS_destroy { c7world with streamToggle := false }) =
      ZilantFS_destroy { c7world with streamToggle := false } := by
  refine ⟨rfl, rfl, rfl, rfl, ?_, rfl⟩
  intro h
  have hc := congrArg DestroyWorld.container h
  rw [show (ZilantFS_destroy (ZilantFS_destroy c7world)).container = some (.streamed [])
      from rfl,
    show (ZilantFS_destroy c7world).container =
      some (.streamed [.file ["a.txt"] 3 (fun _ => 7) 420 0]) from rfl] at hc
  simp at hc

end ZilantPC
